import Mathlib

/-!
Verification of the ground-motion database core (`smtk/gm_database.py`):
a shallow embedding of the identity-hashing pipeline (`_toint`, `_hash`,
`get_ids`), the bound-checking table writer (`_writerow`), the condition
compiler (`_parse_condition`), the PGA/SA sanity check, the header
resolvers used by `_rows`, `normalize_dtime`, the spectral log-log
interpolation (`_get_sa`) and the `parse` statistics, together with
theorems about the specified properties.

Python floats are embedded as exact values: `PyFloat` is NaN, the two
infinities, or a rational; machine rounding of float arithmetic is not
modelled.  Python `round` (round-half-to-even) is modelled exactly.
-/

namespace Smtk

/-- A Python float value: NaN, +inf, -inf, or a finite value (embedded as
an exact rational). -/
inductive PyFloat where
  | nan
  | inf
  | ninf
  | val (q : ℚ)
deriving DecidableEq, Repr

/-- Python `round` on a finite float: round-half-to-even. -/
def qroundHalfEven (q : ℚ) : ℤ :=
  let f := ⌊q⌋
  let r := q - (f : ℚ)
  if r < 1/2 then f
  else if 1/2 < r then f + 1
  else if f % 2 = 0 then f else f + 1

/-! ### SHA-1 (the digest used by `GMDatabaseParser._hash` via `hashlib.sha1`)

Implemented over `List ℕ` of bytes; 32-bit words are naturals reduced
mod `2 ^ 32`. -/

/-- Reduce to a 32-bit word. -/
def w32 (n : ℕ) : ℕ := n % 2 ^ 32

/-- Left-rotate the 32-bit word `n` by `k` (for `n < 2 ^ 32`). -/
def rotl (k n : ℕ) : ℕ := (n * 2 ^ k + n / 2 ^ (32 - k)) % 2 ^ 32

/-- Bitwise complement of a 32-bit word. -/
def not32 (n : ℕ) : ℕ := n ^^^ (2 ^ 32 - 1)

/-- Split a byte list into chunks of 64 bytes. -/
def chunks64 (l : List ℕ) : List (List ℕ) :=
  if h : l = [] then []
  else l.take 64 :: chunks64 (l.drop 64)
termination_by l.length
decreasing_by
  have hl : 0 < l.length := List.length_pos.mpr h
  simp only [List.length_drop]
  omega

/-- Big-endian 32-bit words from bytes (4 bytes per word). -/
def bytesToWords : List ℕ → List ℕ
  | b0 :: b1 :: b2 :: b3 :: rest =>
      (b0 * 2 ^ 24 + b1 * 2 ^ 16 + b2 * 2 ^ 8 + b3) :: bytesToWords rest
  | _ => []

/-- One step of the SHA-1 message-schedule extension: given the window of
the previous 16 words `[w (i-16), ..., w (i-1)]`, produce word `i`. -/
def schedWord (ws : List ℕ) : ℕ :=
  let t := ws.length - 16
  let win := ws.drop t
  rotl 1 (((win.getD 13 0 ^^^ win.getD 8 0) ^^^ win.getD 2 0) ^^^ win.getD 0 0)

/-- Extend the 16-word schedule by `n` further words. -/
def extendSched (ws : List ℕ) : ℕ → List ℕ
  | 0 => ws
  | n + 1 => extendSched (ws ++ [schedWord ws]) n

/-- SHA-1 round function `f` for round `t`. -/
def sha1F (t b c d : ℕ) : ℕ :=
  if t < 20 then (b &&& c) ||| (not32 b &&& d)
  else if t < 40 then (b ^^^ c) ^^^ d
  else if t < 60 then ((b &&& c) ||| (b &&& d)) ||| (c &&& d)
  else (b ^^^ c) ^^^ d

/-- SHA-1 round constant `K` for round `t`. -/
def sha1K (t : ℕ) : ℕ :=
  if t < 20 then 0x5A827999
  else if t < 40 then 0x6ED9EBA1
  else if t < 60 then 0x8F1BBCDC
  else 0xCA62C1D6

/-- The running SHA-1 state (five 32-bit words). -/
structure Sha1State where
  h0 : ℕ
  h1 : ℕ
  h2 : ℕ
  h3 : ℕ
  h4 : ℕ
deriving Repr, DecidableEq

/-- The SHA-1 initialization vector. -/
def sha1Init : Sha1State :=
  ⟨0x67452301, 0xEFCDAB89, 0x98BADCFE, 0x10325476, 0xC3D2E1F0⟩

/-- One SHA-1 round on the working quintuple. -/
def sha1Round (acc : ℕ × ℕ × ℕ × ℕ × ℕ) (tw : ℕ × ℕ) : ℕ × ℕ × ℕ × ℕ × ℕ :=
  let (a, b, c, d, e) := acc
  let (t, w) := tw
  let temp := w32 (rotl 5 a + sha1F t b c d + e + sha1K t + w)
  (temp, a, rotl 30 b, c, d)

/-- Process one 64-byte chunk. -/
def sha1Chunk (st : Sha1State) (chunk : List ℕ) : Sha1State :=
  let ws := extendSched (bytesToWords chunk) 64
  let (a, b, c, d, e) :=
    ws.enum.foldl sha1Round (st.h0, st.h1, st.h2, st.h3, st.h4)
  ⟨w32 (st.h0 + a), w32 (st.h1 + b), w32 (st.h2 + c),
   w32 (st.h3 + d), w32 (st.h4 + e)⟩

/-- Big-endian 8-byte encoding of a length value. -/
def bytesBE8 (n : ℕ) : List ℕ :=
  [n / 2 ^ 56 % 256, n / 2 ^ 48 % 256, n / 2 ^ 40 % 256, n / 2 ^ 32 % 256,
   n / 2 ^ 24 % 256, n / 2 ^ 16 % 256, n / 2 ^ 8 % 256, n % 256]

/-- SHA-1 padding: append `0x80`, zero bytes to 56 mod 64, then the
bit length as a big-endian 64-bit integer. -/
def sha1Pad (msg : List ℕ) : List ℕ :=
  let L := msg.length
  let k := (120 - (L + 1) % 64) % 64
  msg ++ [0x80] ++ List.replicate k 0 ++ bytesBE8 (8 * L)

/-- Big-endian bytes of a 32-bit word. -/
def wordBytes (h : ℕ) : List ℕ :=
  [h / 2 ^ 24 % 256, h / 2 ^ 16 % 256, h / 2 ^ 8 % 256, h % 256]

/-- SHA-1 of a byte list, as the 20-byte digest. -/
def sha1 (msg : List ℕ) : List ℕ :=
  let st := (chunks64 (sha1Pad msg)).foldl sha1Chunk sha1Init
  wordBytes st.h0 ++ wordBytes st.h1 ++ wordBytes st.h2 ++
    wordBytes st.h3 ++ wordBytes st.h4

/-! ### Identity hashing (`GMDatabaseParser._tobytestr`, `_hash`, `_toint`,
`get_ids`) -/

/-- UTF-8 encoding of one character, as bytes. -/
def charUtf8 (c : Char) : List ℕ :=
  let n := c.toNat
  if n < 0x80 then [n]
  else if n < 0x800 then [0xC0 + n / 64, 0x80 + n % 64]
  else if n < 0x10000 then
    [0xE0 + n / 4096, 0x80 + n / 64 % 64, 0x80 + n % 64]
  else
    [0xF0 + n / 0x40000, 0x80 + n / 4096 % 64, 0x80 + n / 64 % 64,
     0x80 + n % 64]

/-- `str.encode('utf8')`: the UTF-8 bytes of a string. -/
def strBytes (s : String) : List ℕ := s.data.flatMap charUtf8

deriving instance DecidableEq for Except

/-- A value fed to `_hash`: `get_ids` passes strings (the db name and the
event time), quantized integers, or a NaN float (which `str` renders as
`"nan"`). -/
inductive HashVal where
  | str (s : String)
  | int (i : ℤ)
  | nanv
deriving DecidableEq, Repr

/-- `_tobytestr`: convert a value to bytes (numbers via `str(...)`,
NaN rendering as the text `nan`). -/
def tobytestr : HashVal → List ℕ
  | .str s => strBytes s
  | .int i => strBytes (toString i)
  | .nanv => strBytes "nan"

/-- `_hash`: SHA-1 of the values serialized by `_tobytestr` and joined
with the separator byte `/`. -/
def pyHash (values : List HashVal) : List ℕ :=
  sha1 (List.intercalate [0x2F] (values.map tobytestr))

/-- `_toint`: returns NaN unchanged, otherwise the half-even rounding of
`10 ^ decimals * value`; `round` of an infinity raises `OverflowError`. -/
def toint (value : PyFloat) (decimals : ℕ) : Except String HashVal :=
  match value with
  | .nan => .ok .nanv
  | .val q => .ok (.int (qroundHalfEven ((10 ^ decimals : ℚ) * q)))
  | .inf => .error "OverflowError: cannot convert float infinity to integer"
  | .ninf => .error "OverflowError: cannot convert float infinity to integer"

/-- The fields of a stored table row read by `get_ids` (the float columns
as Python floats, `event_time` as the stored datetime string). -/
structure TableRow where
  pga : PyFloat
  event_longitude : PyFloat
  event_latitude : PyFloat
  hypocenter_depth : PyFloat
  event_time : String
  station_longitude : PyFloat
  station_latitude : PyFloat
deriving DecidableEq, Repr

/-- `get_ids`: builds the quantized tuple `ids` and returns the digests
of `ids[2:6]` (event), `ids[6:]` (station) and `ids` (record). -/
def get_ids (tablerow : TableRow) (dbname : String) :
    Except String (List ℕ × List ℕ × List ℕ) := do
  let ids : List HashVal :=
    [.str dbname,
     ← toint tablerow.pga 0,
     ← toint tablerow.event_longitude 5,
     ← toint tablerow.event_latitude 5,
     ← toint tablerow.hypocenter_depth 3,
     .str tablerow.event_time,
     ← toint tablerow.station_longitude 5,
     ← toint tablerow.station_latitude 5]
  return (pyHash ((ids.drop 2).take 4), pyHash (ids.drop 6), pyHash ids)

/-- Inversion for `get_ids`: a successful run determines the six quantized
values and the three digests. -/
theorem get_ids_ok_elim {row : TableRow} {dbname : String}
    {t : List ℕ × List ℕ × List ℕ} (h : get_ids row dbname = .ok t) :
    ∃ pgaI evLon evLat dep staLon staLat,
      toint row.pga 0 = .ok pgaI ∧
      toint row.event_longitude 5 = .ok evLon ∧
      toint row.event_latitude 5 = .ok evLat ∧
      toint row.hypocenter_depth 3 = .ok dep ∧
      toint row.station_longitude 5 = .ok staLon ∧
      toint row.station_latitude 5 = .ok staLat ∧
      t = (pyHash [evLon, evLat, dep, .str row.event_time],
           pyHash [staLon, staLat],
           pyHash [.str dbname, pgaI, evLon, evLat, dep,
                   .str row.event_time, staLon, staLat]) := by
  cases hp : toint row.pga 0 with
  | error e => simp [get_ids, hp, bind, Except.bind] at h
  | ok pgaI =>
  cases h1 : toint row.event_longitude 5 with
  | error e => simp [get_ids, hp, h1, bind, Except.bind] at h
  | ok evLon =>
  cases h2 : toint row.event_latitude 5 with
  | error e => simp [get_ids, hp, h1, h2, bind, Except.bind] at h
  | ok evLat =>
  cases h3 : toint row.hypocenter_depth 3 with
  | error e => simp [get_ids, hp, h1, h2, h3, bind, Except.bind] at h
  | ok dep =>
  cases h4 : toint row.station_longitude 5 with
  | error e => simp [get_ids, hp, h1, h2, h3, h4, bind, Except.bind] at h
  | ok staLon =>
  cases h5 : toint row.station_latitude 5 with
  | error e => simp [get_ids, hp, h1, h2, h3, h4, h5, bind, Except.bind] at h
  | ok staLat =>
  refine ⟨pgaI, evLon, evLat, dep, staLon, staLat,
    rfl, rfl, rfl, rfl, rfl, rfl, ?_⟩
  simp [get_ids, hp, h1, h2, h3, h4, h5, bind, Except.bind, pure,
    Except.pure] at h
  exact h.symm

/-- C1: the three identity digests are computed from exactly the fixed
ordered field tuples — `event_id` from (event longitude at 5 decimals,
event latitude at 5 decimals, hypocenter depth at 3 decimals, the event
time string), `station_id` from (station longitude at 5 decimals, station
latitude at 5 decimals), and `record_id` from (the table name, pga at 0
decimals, followed by those six fields in that order), where quantizing
at `d` decimals is `round(v * 10^d)` with NaN passed through; hence two
rows with equal event fields get equal `event_id` whatever their station
fields. -/
theorem get_ids_field_tuples :
    (∀ (row : TableRow) (dbname : String) pgaI evLon evLat dep staLon staLat,
      toint row.pga 0 = .ok pgaI →
      toint row.event_longitude 5 = .ok evLon →
      toint row.event_latitude 5 = .ok evLat →
      toint row.hypocenter_depth 3 = .ok dep →
      toint row.station_longitude 5 = .ok staLon →
      toint row.station_latitude 5 = .ok staLat →
      get_ids row dbname = .ok
        (pyHash [evLon, evLat, dep, .str row.event_time],
         pyHash [staLon, staLat],
         pyHash [.str dbname, pgaI, evLon, evLat, dep,
                 .str row.event_time, staLon, staLat])) ∧
    (∀ (r1 r2 : TableRow) (dbname : String) t1 t2,
      r1.event_longitude = r2.event_longitude →
      r1.event_latitude = r2.event_latitude →
      r1.hypocenter_depth = r2.hypocenter_depth →
      r1.event_time = r2.event_time →
      get_ids r1 dbname = .ok t1 → get_ids r2 dbname = .ok t2 →
      t1.1 = t2.1) := by
  constructor
  · intro row dbname pgaI evLon evLat dep staLon staLat hp h1 h2 h3 h4 h5
    simp [get_ids, hp, h1, h2, h3, h4, h5, bind, Except.bind, pure,
      Except.pure]
  · intro r1 r2 dbname t1 t2 e1 e2 e3 e4 hg1 hg2
    obtain ⟨p1, lon1, lat1, dep1, slon1, slat1, _, a1, a2, a3, _, _, ht1⟩ :=
      get_ids_ok_elim hg1
    obtain ⟨p2, lon2, lat2, dep2, slon2, slat2, _, b1, b2, b3, _, _, ht2⟩ :=
      get_ids_ok_elim hg2
    rw [e1] at a1; rw [e2] at a2; rw [e3] at a3
    rw [b1] at a1; rw [b2] at a2; rw [b3] at a3
    cases a1; cases a2; cases a3
    rw [ht1, ht2, e4]

/-- Witness for C1 at a concrete row. -/
theorem get_ids_field_tuples_witness :
    get_ids ⟨.val 1, .val 2, .val 3, .nan, "2021-01-01T00:00:00",
             .val 5, .val (-6)⟩ "esm" = .ok
      (pyHash [.int 200000, .int 300000, .nanv,
               .str "2021-01-01T00:00:00"],
       pyHash [.int 500000, .int (-600000)],
       pyHash [.str "esm", .int 1, .int 200000, .int 300000, .nanv,
               .str "2021-01-01T00:00:00", .int 500000, .int (-600000)]) :=
  get_ids_field_tuples.1
    ⟨.val 1, .val 2, .val 3, .nan, "2021-01-01T00:00:00",
     .val 5, .val (-6)⟩ "esm" _ _ _ _ _ _
    (by norm_num [toint, qroundHalfEven]) (by norm_num [toint, qroundHalfEven])
    (by norm_num [toint, qroundHalfEven]) (by norm_num [toint, qroundHalfEven])
    (by norm_num [toint, qroundHalfEven]) (by norm_num [toint, qroundHalfEven])

/-- Every byte of a word serialization is below 256. -/
theorem wordBytes_lt (h : ℕ) : ∀ b ∈ wordBytes h, b < 256 := by
  intro b hb
  simp [wordBytes] at hb
  rcases hb with h1 | h1 | h1 | h1 <;> subst h1 <;>
    exact Nat.mod_lt _ (by norm_num)

/-- C2: the identity hashing function is deterministic and total — it is
a pure function, equal quantized tuples (NaN rendered as text) give equal
digests, and every digest is exactly 20 bytes (160 bits). -/
theorem pyHash_deterministic_total (vs ws : List HashVal) :
    (pyHash vs).length = 20 ∧ (∀ b ∈ pyHash vs, b < 256) ∧
      (vs = ws → pyHash vs = pyHash ws) := by
  refine ⟨?_, ?_, fun h => by rw [h]⟩
  · simp [pyHash, sha1, wordBytes]
  · intro b hb
    simp only [pyHash, sha1, List.mem_append] at hb
    rcases hb with ((((h1 | h1) | h1) | h1) | h1) <;>
      exact wordBytes_lt _ b h1

/-- Witness for C2 at a concrete tuple (with a NaN component). -/
theorem pyHash_deterministic_total_witness :
    (pyHash [.str "esm", .nanv, .int 3]).length = 20 ∧
      pyHash [.str "esm", .nanv, .int 3] = pyHash [.str "esm", .nanv, .int 3] :=
  ⟨(pyHash_deterministic_total [.str "esm", .nanv, .int 3] []).1,
   (pyHash_deterministic_total [.str "esm", .nanv, .int 3]
      [.str "esm", .nanv, .int 3]).2.2 rfl⟩

/-! ### The bound-checking table writer (`GMDatabaseParser._writerow`)

A cell value successfully cast by pytables is a float vector (scalars are
broadcast to singletons, matching `np.asarray`); a missing or uncastable
cell leaves the column at its default.  Bounds are the `min_value` /
`max_value` attributes attached by `_col`. -/

/-- The outcome of offering one csv cell to a table column: the column is
absent from the row, the cast raised (`ValueError` / `TypeError`), or it
produced a float vector. -/
inductive CellIn where
  | absent
  | castFail
  | val (v : List PyFloat)
deriving DecidableEq, Repr

/-- A table column as `_writerow` sees it: optional bounds and the
default (missing-sentinel) value. -/
structure ColSpec where
  min_value : Option ℚ
  max_value : Option ℚ
  dflt : List PyFloat
deriving DecidableEq, Repr

/-- numpy `x < bound` on one element (False for NaN). -/
def pyLtB : PyFloat → ℚ → Bool
  | .nan, _ => false
  | .inf, _ => false
  | .ninf, _ => true
  | .val q, m => decide (q < m)

/-- numpy `x > bound` on one element (False for NaN). -/
def pyGtB : PyFloat → ℚ → Bool
  | .nan, _ => false
  | .inf, _ => true
  | .ninf, _ => false
  | .val q, m => decide (m < q)

/-- `(np.asarray(tablerow[col]) < bound).any()` guarded by the bound
being present. -/
def minViolated (spec : ColSpec) (v : List PyFloat) : Bool :=
  match spec.min_value with
  | some m => v.any fun e => pyLtB e m
  | none => false

/-- `(np.asarray(tablerow[col]) > bound).any()` guarded by the bound
being present. -/
def maxViolated (spec : ColSpec) (v : List PyFloat) : Bool :=
  match spec.max_value with
  | some m => v.any fun e => pyGtB e m
  | none => false

/-- How `_writerow` classified one column of one row. -/
inductive CellStatus where
  | stOk
  | stMissing
  | stOutOfBound
deriving DecidableEq, Repr

/-- The per-column body of `_writerow`'s loop: absent or uncastable cells
keep the default and count as missing; otherwise the min bound is checked
first, then the max bound, each `continue`-ing with the default stored
and the column counted out-of-bound. -/
def writeCell (spec : ColSpec) (cin : CellIn) : List PyFloat × CellStatus :=
  match cin with
  | .absent => (spec.dflt, .stMissing)
  | .castFail => (spec.dflt, .stMissing)
  | .val v =>
    if minViolated spec v then (spec.dflt, .stOutOfBound)
    else if maxViolated spec v then (spec.dflt, .stOutOfBound)
    else (v, .stOk)

/-- `_writerow`'s loop over the schema in declared order, returning the
stored values, the missing column names and the out-of-bound column
names. -/
def writeRowCols (schema : List (String × ColSpec)) (csvrow : String → CellIn) :
    List (String × List PyFloat) × List String × List String :=
  match schema with
  | [] => ([], [], [])
  | (col, spec) :: rest =>
    let r := writeRowCols rest csvrow
    match writeCell spec (csvrow col) with
    | (v, .stOk) => ((col, v) :: r.1, r.2.1, r.2.2)
    | (v, .stMissing) => ((col, v) :: r.1, col :: r.2.1, r.2.2)
    | (v, .stOutOfBound) => ((col, v) :: r.1, r.2.1, col :: r.2.2)

/-- Every out-of-bound column name comes from the schema. -/
theorem writeRowCols_oob_mem {schema : List (String × ColSpec)}
    {csvrow : String → CellIn} {c : String}
    (h : c ∈ (writeRowCols schema csvrow).2.2) :
    c ∈ schema.map Prod.fst := by
  induction schema with
  | nil => simp [writeRowCols] at h
  | cons hd tl ih =>
    obtain ⟨col, spec⟩ := hd
    simp only [writeRowCols] at h
    rcases hw : writeCell spec (csvrow col) with ⟨v, st⟩
    rw [hw] at h
    simp only [List.map_cons, List.mem_cons]
    cases st <;> simp at h
    · exact Or.inr (ih h)
    · exact Or.inr (ih h)
    · rcases h with h | h
      · exact Or.inl h
      · exact Or.inr (ih h)

/-- Out-of-bound counting: under a duplicate-free schema, a column is
counted exactly once when its bounds are violated and zero times
otherwise. -/
theorem writeRowCols_oob_count {schema : List (String × ColSpec)}
    {csvrow : String → CellIn} {col : String} {spec : ColSpec}
    (hnd : (schema.map Prod.fst).Nodup) (hmem : (col, spec) ∈ schema) :
    (writeRowCols schema csvrow).2.2.count col =
      if (writeCell spec (csvrow col)).2 = .stOutOfBound then 1 else 0 := by
  induction schema with
  | nil => simp at hmem
  | cons hd tl ih =>
    obtain ⟨c0, s0⟩ := hd
    simp only [List.map_cons, List.nodup_cons] at hnd
    rcases List.mem_cons.mp hmem with heq | htl
    · cases heq
      have hnotin : col ∉ (writeRowCols tl csvrow).2.2 := fun hc =>
        hnd.1 (writeRowCols_oob_mem hc)
      simp only [writeRowCols]
      rcases hw : writeCell spec (csvrow col) with ⟨v, st⟩
      cases st <;>
        simp [hw, List.count_eq_zero.mpr hnotin, List.count_cons]
    · have hc0 : c0 ≠ col := by
        intro h
        subst h
        exact hnd.1 (List.mem_map.mpr ⟨(c0, spec), htl, rfl⟩)
      simp only [writeRowCols]
      rcases hw : writeCell s0 (csvrow c0) with ⟨v, st⟩
      cases st <;> simp [hw, List.count_cons, hc0, ih hnd.2 htl]

/-- C3: bound checking in `_writerow` — values exactly at a bound are
accepted and stored; the min bound is checked first (a min violation
stores the sentinel and counts out-of-bound regardless of the max
bound); a max violation with the min bound satisfied does the same; a
bounded column is counted out-of-bound exactly once per row, never
twice; and for a vector value a single element breaching a bound fails
the whole column. -/
theorem writerow_bounds :
    (∀ (m M : ℚ) (d : List PyFloat) (q : ℚ), m ≤ q → q ≤ M →
      writeCell ⟨some m, some M, d⟩ (.val [.val q]) = ([.val q], .stOk)) ∧
    (∀ (m : ℚ) (Mv : Option ℚ) (d : List PyFloat) (v : List PyFloat),
      (v.any fun e => pyLtB e m) = true →
      writeCell ⟨some m, Mv, d⟩ (.val v) = (d, .stOutOfBound)) ∧
    (∀ (mv : Option ℚ) (M : ℚ) (d : List PyFloat) (v : List PyFloat),
      minViolated ⟨mv, some M, d⟩ v = false →
      (v.any fun e => pyGtB e M) = true →
      writeCell ⟨mv, some M, d⟩ (.val v) = (d, .stOutOfBound)) ∧
    (∀ (schema : List (String × ColSpec)) (csvrow : String → CellIn)
       (col : String) (spec : ColSpec),
      (schema.map Prod.fst).Nodup → (col, spec) ∈ schema →
      (writeRowCols schema csvrow).2.2.count col =
        if (writeCell spec (csvrow col)).2 = .stOutOfBound then 1 else 0) ∧
    (∀ (m : ℚ) (Mv : Option ℚ) (d : List PyFloat) (v : List PyFloat)
       (e : PyFloat), e ∈ v → pyLtB e m = true →
      writeCell ⟨some m, Mv, d⟩ (.val v) = (d, .stOutOfBound)) := by
  refine ⟨?_, ?_, ?_, ?_, ?_⟩
  · intro m M d q h1 h2
    simp only [writeCell, minViolated, maxViolated, pyLtB, pyGtB,
      List.any_cons, List.any_nil, Bool.or_false, decide_eq_true_eq]
    rw [if_neg (not_lt.mpr h1), if_neg (not_lt.mpr h2)]
  · intro m Mv d v h
    simp [writeCell, minViolated, h]
  · intro mv M d v h1 h2
    simp [writeCell, h1, maxViolated, h2]
  · intro schema csvrow col spec hnd hmem
    exact writeRowCols_oob_count hnd hmem
  · intro m Mv d v e he h
    have : (v.any fun e => pyLtB e m) = true :=
      List.any_eq_true.mpr ⟨e, he, h⟩
    simp [writeCell, minViolated, this]

/-- Witness for C3: the real `event_latitude` bounds (±90) at the exact
max, a below-min violation and its count in a one-column schema. -/
theorem writerow_bounds_witness :
    writeCell ⟨some (-90), some 90, [.nan]⟩ (.val [.val 90]) =
      ([.val 90], .stOk) ∧
    writeCell ⟨some (-90), some 90, [.nan]⟩ (.val [.val (-91)]) =
      ([.nan], .stOutOfBound) ∧
    (writeRowCols [("event_latitude", ⟨some (-90), some 90, [.nan]⟩)]
        (fun _ => .val [.val (-91)])).2.2.count "event_latitude" =
      if (writeCell ⟨some (-90), some 90, [.nan]⟩
            (.val [.val (-91)])).2 = .stOutOfBound then 1 else 0 :=
  ⟨writerow_bounds.1 (-90) 90 [.nan] 90 (by norm_num) (by norm_num),
   writerow_bounds.2.1 (-90) (some 90) [.nan] [.val (-91)]
     (by simp [pyLtB]; norm_num),
   writerow_bounds.2.2.2.1 [("event_latitude", ⟨some (-90), some 90, [.nan]⟩)]
     (fun _ => .val [.val (-91)]) "event_latitude" ⟨some (-90), some 90, [.nan]⟩
     (by simp) (by simp)⟩

/-! ### The condition compiler (`_parse_condition`)

Modelled at the token level: the Python `tokenize` stream is a list of
(type, string) tokens (`generate_tokens` also emits trailing NEWLINE and
ENDMARKER tokens whose string is empty).  The scan appends every token
to `result`, so the pre-rewrite `result` equals the input list and the
scan only accumulates the indices to rewrite, exactly as the source
does. -/

/-- A Python token kind, as used by `_parse_condition` (`tokenize.STRING`,
`tokenize.OP`, `tokenize.NAME`; everything else is behaviourally
uniform). -/
inductive TokType where
  | NAME
  | OP
  | STRING
  | NUMBER
  | OTHER
deriving DecidableEq, Repr

/-- One token of the condition string. -/
structure Tok where
  typ : TokType
  str : String
deriving DecidableEq, Repr

/-- `last_tokenstr()`: the string of the last appended token, or `""`. -/
def lastStr : Option Tok → String
  | none => ""
  | some t => t.str

/-- The scan loop of `_parse_condition`: walks the tokens carrying the
last two appended tokens, the current index, and the accumulated nan /
string rewrite indices; raises on illegal logical-operator adjacency and
on comparing nan with an operator other than `==` / `!=`.  After the
loop the final `last_tokenstr()` may not be `&`, `|` or `~`. -/
def condScan : List Tok → Option Tok → Option Tok → ℕ → List ℕ → List ℕ →
    Except String (List ℕ × List ℕ)
  | [], _, prev1, _, nanIdx, strIdx =>
    if lastStr prev1 = "&" ∨ lastStr prev1 = "|" ∨ lastStr prev1 = "~" then
      .error "Logical operators (&|~) allowed only with parenthezised expressions"
    else .ok (nanIdx, strIdx)
  | t :: ts, prev2, prev1, idx, nanIdx, strIdx =>
    if (t.str = "&" ∨ t.str = "|") ∧ lastStr prev1 ≠ ")" then
      .error "Logical operators (&|~) allowed only with parenthezised expressions"
    else if (lastStr prev1 = "~" ∨ lastStr prev1 = "|" ∨ lastStr prev1 = "&")
        ∧ ¬(t.str = "~" ∨ t.str = "(") then
      .error "Logical operators (&|~) allowed only with parenthezised expressions"
    else if t.typ = .STRING ∧ t.str.take 1 ≠ "b" then
      condScan ts prev1 (some t) (idx + 1) nanIdx (strIdx ++ [idx])
    else if t.typ = .NAME ∧ (t.str = "nan" ∨ t.str = "NAN" ∨ t.str = "NaN")
        ∧ idx > 1 then
      match prev2, prev1 with
      | some p2, some p1 =>
        if p2.typ = .NAME ∧ p1.typ = .OP then
          if p1.str = "==" ∨ p1.str = "!=" then
            condScan ts prev1 (some t) (idx + 1) (nanIdx ++ [idx]) strIdx
          else .error "only != and == can be compared with nan"
        else condScan ts prev1 (some t) (idx + 1) nanIdx strIdx
      | _, _ => condScan ts prev1 (some t) (idx + 1) nanIdx strIdx
    else condScan ts prev1 (some t) (idx + 1) nanIdx strIdx

/-- `nan_operators`: swap `==` and `!=`. -/
def nanSwap (op : String) : String :=
  if op = "==" then "!=" else if op = "!=" then "==" else op

/-- Update only the string of the token at index `i`. -/
def setTokStr (toks : List Tok) (i : ℕ) (s : String) : List Tok :=
  match toks[i]? with
  | some t => toks.set i { t with str := s }
  | none => toks

/-- The byte-literal rewrite applied to a quoted string token
(`shlex.split` unquoting then `str(....encode('utf8'))`), modelled for
plain ASCII literals without embedded escapes. -/
def pyBytesLit (s : String) : String :=
  let inner :=
    if s.length ≥ 2 ∧ (s.take 1 = "\'" ∨ s.take 1 = "\"") then
      (s.drop 1).dropRight 1
    else s
  "b\'" ++ inner ++ "\'"

/-- Apply the string-literal rewrite at one recorded index. -/
def applyStrRewrite (toks : List Tok) (i : ℕ) : List Tok :=
  match toks[i]? with
  | some t => toks.set i { t with str := pyBytesLit t.str }
  | none => toks

/-- Apply the nan rewrite at one recorded index `i`: the operator at
`i - 1` is swapped and the nan token at `i` is replaced by the variable
name found at `i - 2` (reading the current, possibly already rewritten,
list as the source does). -/
def applyNanRewrite (toks : List Tok) (i : ℕ) : List Tok :=
  let varname := lastStr toks[i - 2]?
  let operator := lastStr toks[i - 1]?
  setTokStr (setTokStr toks (i - 1) (nanSwap operator)) i varname

/-- `_parse_condition` at the token level: scan (validating), then
rewrite the recorded string tokens, then the recorded nan comparisons. -/
def parseCondition (toks : List Tok) : Except String (List Tok) :=
  match condScan toks none none 0 [] [] with
  | .error e => .error e
  | .ok (nanIdx, strIdx) =>
    .ok (nanIdx.foldl applyNanRewrite (strIdx.foldl applyStrRewrite toks))

/-- Processing one token either raises or recurses on the remaining
tokens with the window shifted (whatever the accumulated indices). -/
theorem condScan_step (t : Tok) (ts : List Tok) (p2 p1 : Option Tok)
    (idx : ℕ) (ni si : List ℕ) :
    (∃ e, condScan (t :: ts) p2 p1 idx ni si = .error e) ∨
    (∃ ni2 si2, condScan (t :: ts) p2 p1 idx ni si =
      condScan ts p1 (some t) (idx + 1) ni2 si2) := by
  simp only [condScan]
  split
  · exact Or.inl ⟨_, rfl⟩
  split
  · exact Or.inl ⟨_, rfl⟩
  split
  · exact Or.inr ⟨_, _, rfl⟩
  split
  · split
    · split
      · split
        · exact Or.inr ⟨_, _, rfl⟩
        · exact Or.inl ⟨_, rfl⟩
      · exact Or.inr ⟨_, _, rfl⟩
    · exact Or.inr ⟨_, _, rfl⟩
  · exact Or.inr ⟨_, _, rfl⟩

/-- If the last appended token was `~`, `|` or `&` and the next token is
neither `~` nor `(`, the scan raises at that next token. -/
theorem condScan_err_head2 (tn : Tok) (ts : List Tok) (p2 p1 : Option Tok)
    (idx : ℕ) (ni si : List ℕ)
    (hprev : lastStr p1 = "~" ∨ lastStr p1 = "|" ∨ lastStr p1 = "&")
    (hnext : ¬(tn.str = "~" ∨ tn.str = "(")) :
    ∃ e, condScan (tn :: ts) p2 p1 idx ni si = .error e := by
  simp only [condScan]
  split
  · exact ⟨_, rfl⟩
  · rw [if_pos ⟨hprev, hnext⟩]
    exact ⟨_, rfl⟩

/-- A `&` or `|` token not immediately preceded by `)` makes the scan
raise (`lastStr p1` stands for the token preceding the suffix `ts`). -/
theorem condScan_err_amp : ∀ (ts : List Tok) (p2 p1 : Option Tok)
    (idx : ℕ) (ni si : List ℕ) (i : ℕ) (tok : Tok),
    ts[i]? = some tok → (tok.str = "&" ∨ tok.str = "|") →
    (if i = 0 then lastStr p1 else lastStr ts[i-1]?) ≠ ")" →
    ∃ e, condScan ts p2 p1 idx ni si = .error e := by
  intro ts
  induction ts with
  | nil => intro _ _ _ _ _ i tok h; simp at h
  | cons t ts ih =>
    intro p2 p1 idx ni si i tok hget hop hprec
    cases i with
    | zero =>
      simp only [List.getElem?_cons_zero, Option.some.injEq] at hget
      subst hget
      simp only [reduceIte] at hprec
      exact ⟨"Logical operators (&|~) allowed only with parenthezised expressions",
        by simp only [condScan]; rw [if_pos ⟨hop, hprec⟩]⟩
    | succ j =>
      simp only [List.getElem?_cons_succ] at hget
      have hprec2 :
          (if j = 0 then lastStr (some t) else lastStr ts[j-1]?) ≠ ")" := by
        cases j with
        | zero => simpa using hprec
        | succ k => simpa using hprec
      rcases condScan_step t ts p2 p1 idx ni si with ⟨e, he⟩ | ⟨ni2, si2, hrec⟩
      · exact ⟨e, he⟩
      · rw [hrec]
        exact ih p1 (some t) (idx + 1) ni2 si2 j tok hget hop hprec2

/-- A token following a `&`, `|` or `~` token that is neither `~` nor
`(` makes the scan raise. -/
theorem condScan_err_follow : ∀ (ts : List Tok) (p2 p1 : Option Tok)
    (idx : ℕ) (ni si : List ℕ) (i : ℕ) (ti tn : Tok),
    ts[i]? = some ti →
    (ti.str = "~" ∨ ti.str = "|" ∨ ti.str = "&") →
    ts[i+1]? = some tn → ¬(tn.str = "~" ∨ tn.str = "(") →
    ∃ e, condScan ts p2 p1 idx ni si = .error e := by
  intro ts
  induction ts with
  | nil => intro _ _ _ _ _ i ti tn h; simp at h
  | cons t ts ih =>
    intro p2 p1 idx ni si i ti tn hget hop hnextget hnext
    cases i with
    | zero =>
      simp only [List.getElem?_cons_zero, Option.some.injEq] at hget
      subst hget
      simp only [List.getElem?_cons_succ] at hnextget
      cases ts with
      | nil => simp at hnextget
      | cons t2 ts2 =>
        simp only [List.getElem?_cons_zero, Option.some.injEq] at hnextget
        subst hnextget
        rcases condScan_step t (t2 :: ts2) p2 p1 idx ni si with
          ⟨e, he⟩ | ⟨ni2, si2, hrec⟩
        · exact ⟨e, he⟩
        · rw [hrec]
          exact condScan_err_head2 t2 ts2 p1 (some t) (idx + 1) ni2 si2 hop
            hnext
    | succ j =>
      simp only [List.getElem?_cons_succ] at hget hnextget
      rcases condScan_step t ts p2 p1 idx ni si with ⟨e, he⟩ | ⟨ni2, si2, hrec⟩
      · exact ⟨e, he⟩
      · rw [hrec]
        exact ih p1 (some t) (idx + 1) ni2 si2 j ti tn hget hop hnextget hnext

/-- The tokenization of `"(pga<=0.5)&(pgv>9.5)"` (with the trailing
NEWLINE and ENDMARKER tokens the tokenizer emits). -/
def exprOkToks : List Tok :=
  [⟨.OP, "("⟩, ⟨.NAME, "pga"⟩, ⟨.OP, "<="⟩, ⟨.NUMBER, "0.5"⟩, ⟨.OP, ")"⟩,
   ⟨.OP, "&"⟩, ⟨.OP, "("⟩, ⟨.NAME, "pgv"⟩, ⟨.OP, ">"⟩, ⟨.NUMBER, "9.5"⟩,
   ⟨.OP, ")"⟩, ⟨.OTHER, ""⟩, ⟨.OTHER, ""⟩]

/-- The tokenization of `"pga<=0.5 & pgv>9.5"` (missing parentheses). -/
def exprBadToks : List Tok :=
  [⟨.NAME, "pga"⟩, ⟨.OP, "<="⟩, ⟨.NUMBER, "0.5"⟩, ⟨.OP, "&"⟩,
   ⟨.NAME, "pgv"⟩, ⟨.OP, ">"⟩, ⟨.NUMBER, "9.5"⟩, ⟨.OTHER, ""⟩, ⟨.OTHER, ""⟩]

/-- C5: the condition compiler raises a syntax error whenever a `&` or
`|` token is not immediately preceded by `)`, and whenever the token
following a `&`, `|`, or `~` is neither `~` nor `(` (in particular after
a `~` that is itself preceded by `&`/`|`); `"(pga<=0.5)&(pgv>9.5)"`
validates unchanged while `"pga<=0.5 & pgv>9.5"` raises, and a rejected
input yields only the error — no rewritten output. -/
theorem parseCondition_adjacency :
    (∀ (ts : List Tok) (i : ℕ) (tok : Tok),
      ts[i]? = some tok → (tok.str = "&" ∨ tok.str = "|") →
      (if i = 0 then "" else lastStr ts[i-1]?) ≠ ")" →
      ∃ e, parseCondition ts = .error e) ∧
    (∀ (ts : List Tok) (i : ℕ) (ti tn : Tok),
      ts[i]? = some ti →
      (ti.str = "&" ∨ ti.str = "|" ∨
        (ti.str = "~" ∧ 0 < i ∧
          (lastStr ts[i-1]? = "&" ∨ lastStr ts[i-1]? = "|"))) →
      ts[i+1]? = some tn → ¬(tn.str = "~" ∨ tn.str = "(") →
      ∃ e, parseCondition ts = .error e) ∧
    parseCondition exprOkToks = .ok exprOkToks ∧
    parseCondition exprBadToks =
      .error "Logical operators (&|~) allowed only with parenthezised expressions" := by
  refine ⟨?_, ?_, by decide, by decide⟩
  · intro ts i tok hget hop hprec
    obtain ⟨e, he⟩ := condScan_err_amp ts none none 0 [] [] i tok hget hop
      (by cases i <;> simpa [lastStr] using hprec)
    exact ⟨e, by simp [parseCondition, he]⟩
  · intro ts i ti tn hget hop hnextget hnext
    have hop2 : ti.str = "~" ∨ ti.str = "|" ∨ ti.str = "&" := by
      rcases hop with h | h | h
      · exact Or.inr (Or.inr h)
      · exact Or.inr (Or.inl h)
      · exact Or.inl h.1
    obtain ⟨e, he⟩ := condScan_err_follow ts none none 0 [] [] i ti tn hget
      hop2 hnextget hnext
    exact ⟨e, by simp [parseCondition, he]⟩

/-- Witness for C5: the missing-parenthesis example rejected through the
first adjacency rule. -/
theorem parseCondition_adjacency_witness :
    ∃ e, parseCondition exprBadToks = .error e :=
  parseCondition_adjacency.1 exprBadToks 3 ⟨.OP, "&"⟩ (by decide)
    (by decide) (by decide)

/-- The tokenization of `"pga == nAn"` — a casing of nan different from
the three spellings `nan` / `NAN` / `NaN` the source compares with. -/
def nanCexToks : List Tok :=
  [⟨.NAME, "pga"⟩, ⟨.OP, "=="⟩, ⟨.NAME, "nAn"⟩, ⟨.OTHER, ""⟩, ⟨.OTHER, ""⟩]

/-- Counterexample to C4 as stated: `nAn` matches "nan"
case-insensitively, yet the compiler returns `pga == nAn` unchanged —
neither the claimed rewrite to `pga != pga` nor an error — so the nan
operand is not matched case-insensitively. -/
theorem parseCondition_nan_cex :
    parseCondition nanCexToks = .ok nanCexToks ∧
      nanCexToks ≠
        [⟨.NAME, "pga"⟩, ⟨.OP, "!="⟩, ⟨.NAME, "pga"⟩,
         ⟨.OTHER, ""⟩, ⟨.OTHER, ""⟩] := by
  constructor <;> decide

/-- C4 (amended): for a nan operand spelled exactly `nan`, `NAN` or
`NaN` (other casings pass through untouched), a comparison
`<name> == nan` / `<name> != nan` of a NAME token against it is
rewritten by swapping the operator and replacing the nan operand with
the name, and any other operator in that position raises an error. -/
theorem parseCondition_nan_rewrite :
    ∀ (n z : String), (z = "nan" ∨ z = "NAN" ∨ z = "NaN") →
      n ≠ "&" → n ≠ "|" → n ≠ "~" → n ≠ ")" →
      ((∀ op, (op = "==" ∨ op = "!=") →
        parseCondition [⟨.NAME, n⟩, ⟨.OP, op⟩, ⟨.NAME, z⟩] =
          .ok [⟨.NAME, n⟩, ⟨.OP, nanSwap op⟩, ⟨.NAME, n⟩]) ∧
       (∀ op, op ≠ "==" → op ≠ "!=" →
        ∃ e, parseCondition [⟨.NAME, n⟩, ⟨.OP, op⟩, ⟨.NAME, z⟩] = .error e)) := by
  intro n z hz hn1 hn2 hn3 hn4
  constructor
  · intro op hop
    rcases hop with rfl | rfl <;> rcases hz with rfl | rfl | rfl <;>
      simp [parseCondition, condScan, lastStr, applyNanRewrite, setTokStr,
        nanSwap, hn1, hn2, hn3]
  · intro op ho1 ho2
    by_cases hamp : op = "&" ∨ op = "|"
    · exact ⟨"Logical operators (&|~) allowed only with parenthezised expressions",
        by rcases hamp with rfl | rfl <;>
          simp [parseCondition, condScan, lastStr, hn1, hn2, hn3, hn4]⟩
    · by_cases htil : op = "~"
      · subst htil
        rcases hz with rfl | rfl | rfl <;>
          exact ⟨"Logical operators (&|~) allowed only with parenthezised expressions",
            by simp [parseCondition, condScan, lastStr, hn1, hn2, hn3]⟩
      · have ho3 : op ≠ "&" := fun h => hamp (Or.inl h)
        have ho4 : op ≠ "|" := fun h => hamp (Or.inr h)
        rcases hz with rfl | rfl | rfl <;>
          exact ⟨"only != and == can be compared with nan",
            by simp [parseCondition, condScan, lastStr, hn1, hn2, hn3, ho1,
              ho2, ho3, ho4, htil]⟩

/-- Witness for C4 (amended): `pga != nan` rewrites to `pga == pga`, and
`pga < NaN` raises. -/
theorem parseCondition_nan_rewrite_witness :
    parseCondition [⟨.NAME, "pga"⟩, ⟨.OP, "!="⟩, ⟨.NAME, "nan"⟩] =
      .ok [⟨.NAME, "pga"⟩, ⟨.OP, nanSwap "!="⟩, ⟨.NAME, "pga"⟩] ∧
    ∃ e, parseCondition [⟨.NAME, "pga"⟩, ⟨.OP, "<"⟩, ⟨.NAME, "NaN"⟩] =
      .error e :=
  ⟨(parseCondition_nan_rewrite "pga" "nan" (Or.inl rfl) (by decide) (by decide)
      (by decide) (by decide)).1 "!=" (Or.inr rfl),
   (parseCondition_nan_rewrite "pga" "NaN" (Or.inr (Or.inr rfl)) (by decide)
      (by decide) (by decide) (by decide)).2 "<" (by decide) (by decide)⟩

/-! ### The PGA/SA unit sanity check (`_sanity_check` / `_pga_sa_unit_ok`)

Python float comparison, two-argument `max`/`min`, division, `abs`,
`np.isnan` and `round` are modelled on `PyFloat`; the operations that
raise (`ZeroDivisionError` on division by zero, `OverflowError` when
rounding an infinity) return `Except` errors, which the source catches
and turns into a passing check. -/

/-- Python `a > b` on floats: False whenever NaN is involved. -/
def pyGt : PyFloat → PyFloat → Bool
  | .nan, _ => false
  | _, .nan => false
  | .inf, .inf => false
  | .inf, _ => true
  | .ninf, _ => false
  | .val _, .inf => false
  | .val _, .ninf => true
  | .val a, .val b => decide (b < a)

/-- Python `a < b` on floats. -/
def pyLt (a b : PyFloat) : Bool := pyGt b a

/-- Python two-argument `max(a, b)`: `b` if `b > a` else `a`. -/
def pyMax (a b : PyFloat) : PyFloat := if pyGt b a then b else a

/-- Python two-argument `min(a, b)`: `b` if `b < a` else `a`. -/
def pyMin (a b : PyFloat) : PyFloat := if pyLt b a then b else a

/-- Python float division, raising `ZeroDivisionError` on a zero
divisor. -/
def pyDiv (a b : PyFloat) : Except String PyFloat :=
  match a, b with
  | a, .val q =>
    if q = 0 then .error "ZeroDivisionError: float division by zero"
    else
      match a with
      | .nan => .ok .nan
      | .inf => .ok (if 0 < q then .inf else .ninf)
      | .ninf => .ok (if 0 < q then .ninf else .inf)
      | .val p => .ok (.val (p / q))
  | .nan, _ => .ok .nan
  | _, .nan => .ok .nan
  | .val _, _ => .ok (.val 0)
  | _, _ => .ok .nan

/-- Python `abs` on floats. -/
def pyAbs : PyFloat → PyFloat
  | .nan => .nan
  | .inf => .inf
  | .ninf => .inf
  | .val q => .val |q|

/-- `np.isnan`. -/
def pyIsNan : PyFloat → Bool
  | .nan => true
  | _ => false

/-- Python one-argument `round`: half-to-even on finites, raising on NaN
and the infinities. -/
def pyRound : PyFloat → Except String ℤ
  | .val q => .ok (qroundHalfEven q)
  | .nan => .error "ValueError: cannot convert float NaN to integer"
  | .inf => .error "OverflowError: cannot convert float infinity to integer"
  | .ninf => .error "OverflowError: cannot convert float infinity to integer"

/-- `scipy.constants.g`. -/
def gQ : ℚ := 9.80665

/-- `_pga_sa_unit_ok` on the two extracted row values `float(rowdict['pga'])`
and `float(rowdict['sa'][0])` (`none` models any failure of the
extraction — missing key, empty array, unparsable string — which the
source catches, passing the check): divides pga by `100 * g`, forms
`retol = abs(max / min)` and fails only when `retol` is not NaN and
`round(retol) >= 10`; every raising step passes the check. -/
def pga_sa_unit_ok (pga0 sa0 : Option PyFloat) : Bool :=
  match pga0, sa0 with
  | some praw, some sa0v =>
    (match pyDiv praw (.val (100 * gQ)) with
     | .error _ => true
     | .ok pga =>
       match pyDiv (pyMax pga sa0v) (pyMin pga sa0v) with
       | .error _ => true
       | .ok r =>
         let retol := pyAbs r
         if pyIsNan retol then true
         else
           match pyRound retol with
           | .error _ => true
           | .ok z => decide (z < 10))
  | _, _ => true

/-! ### Header resolution (`_get_sa_columns`, `_get_event_time_columns`,
`_get_pga_column` and the front part of `_rows`)

String machinery: Python `str.lower` / `str.strip`, the `\s*` regex
whitespace class, the two column-matching regular expressions
`^\s*sa\s*\((.*)\)\s*$` and `^\s*pga\s*\((.*)\)\s*$` (case-insensitive,
greedy capture), and `float(...)` literal parsing. -/

/-- The characters of the regex class `\s` (also what `str.strip()`
removes, for ASCII text). -/
def isPyWs (c : Char) : Bool :=
  c = ' ' ∨ c = '\t' ∨ c = '\n' ∨ c = '\r' ∨ c = '\x0b' ∨ c = '\x0c'

/-- `str.lower()` (ASCII). -/
def pyLower (s : String) : String := ⟨s.data.map Char.toLower⟩

/-- Strip `\s` characters from both ends of a char list. -/
def stripChars (cs : List Char) : List Char :=
  ((cs.dropWhile isPyWs).reverse.dropWhile isPyWs).reverse

/-- `str.strip()` (ASCII). -/
def pyStripStr (s : String) : String := ⟨stripChars s.data⟩

/-- Case-insensitively strip the (lowercase) prefix `pre`. -/
def stripCIPre : List Char → List Char → Option (List Char)
  | [], cs => some cs
  | _ :: _, [] => none
  | p :: ps, c :: cs => if c.toLower = p then stripCIPre ps cs else none

/-- Match `^\s*<pre>\s*\((.*)\)\s*$` (case-insensitive, greedy capture):
the capture runs to the last `)` that is followed only by whitespace. -/
def matchPrefixParen (pre : List Char) (s : String) : Option String :=
  match stripCIPre pre (s.data.dropWhile isPyWs) with
  | none => none
  | some s2 =>
    match s2.dropWhile isPyWs with
    | '(' :: rest =>
      match rest.reverse.dropWhile isPyWs with
      | ')' :: inner => some ⟨inner.reverse⟩
      | _ => none
    | _ => none

/-- Parse a digit run with PEP-515 single underscores between digits;
returns the value, the number of digits, and the rest.  A trailing or
doubled underscore is left unconsumed (and rejected by the caller). -/
def parseUDigits (cs : List Char) : Option (ℕ × ℕ × List Char) :=
  match cs with
  | c :: rest =>
    if c.isDigit then some (go (c.toNat - 48) 1 rest) else none
  | [] => none
where
  go (acc cnt : ℕ) : List Char → ℕ × ℕ × List Char
    | '_' :: c :: rest =>
      if c.isDigit then go (acc * 10 + (c.toNat - 48)) (cnt + 1) rest
      else (acc, cnt, '_' :: c :: rest)
    | c :: rest =>
      if c.isDigit then go (acc * 10 + (c.toNat - 48)) (cnt + 1) rest
      else (acc, cnt, c :: rest)
    | [] => (acc, cnt, [])
  termination_by cs => cs.length

/-- Parse an optional exponent part `(e|E)[sign]digits`; when absent or
malformed the input is left unconsumed (the leftover then fails the
whole parse, as in CPython). -/
def parseExpPart (m : ℚ) (cs : List Char) : ℚ × List Char :=
  match cs with
  | e :: rest =>
    if e = 'e' ∨ e = 'E' then
      match rest with
      | '+' :: rest2 =>
        match parseUDigits rest2 with
        | some (ex, _, rest3) => (m * 10 ^ (ex : ℤ), rest3)
        | none => (m, cs)
      | '-' :: rest2 =>
        match parseUDigits rest2 with
        | some (ex, _, rest3) => (m * 10 ^ (-(ex : ℤ)), rest3)
        | none => (m, cs)
      | _ =>
        match parseUDigits rest with
        | some (ex, _, rest3) => (m * 10 ^ (ex : ℤ), rest3)
        | none => (m, cs)
    else (m, cs)
  | [] => (m, cs)

/-- Parse the numeric part of a float literal:
`digits[.digits?][exp]` or `.digits[exp]`. -/
def parseNumber (cs : List Char) : Option (ℚ × List Char) :=
  match parseUDigits cs with
  | some (ip, _, rest) =>
    match rest with
    | '.' :: rest2 =>
      match parseUDigits rest2 with
      | some (fp, fl, rest3) =>
        some (parseExpPart ((ip : ℚ) + (fp : ℚ) / 10 ^ fl) rest3)
      | none => some (parseExpPart (ip : ℚ) rest2)
    | _ => some (parseExpPart (ip : ℚ) rest)
  | none =>
    match cs with
    | '.' :: rest2 =>
      match parseUDigits rest2 with
      | some (fp, fl, rest3) =>
        some (parseExpPart ((fp : ℚ) / 10 ^ fl) rest3)
      | none => none
    | _ => none

/-- Python `float(str)`: strip whitespace, optional sign, then `inf`,
`infinity`, `nan` (case-insensitive) or a numeric literal consuming the
whole rest. -/
def pyFloatParse (s : String) : Option PyFloat :=
  let cs := stripChars s.data
  let sgnNeg : Bool := match cs with
    | '-' :: _ => true
    | _ => false
  let cs2 : List Char := match cs with
    | '+' :: r => r
    | '-' :: r => r
    | r => r
  let low := cs2.map Char.toLower
  if low = "infinity".data ∨ low = "inf".data then
    some (if sgnNeg then .ninf else .inf)
  else if low = "nan".data then some .nan
  else
    match parseNumber cs2 with
    | some (m, []) => some (.val (if sgnNeg then -m else m))
    | _ => none

/-- `_get_sa_columns`: collect the fieldnames matching the SA regex and
their periods; an unparsable period raises `float`'s `ValueError`. -/
def _get_sa_columns : List String → Except String (List String × List PyFloat)
  | [] => .ok ([], [])
  | fname :: rest =>
    match matchPrefixParen ['s', 'a'] fname with
    | some g =>
      match pyFloatParse g with
      | some p =>
        match _get_sa_columns rest with
        | .ok (fs, ps) => .ok (fname :: fs, p :: ps)
        | .error e => .error e
      | none => .error ("could not convert string to float: " ++ g)
    | none => _get_sa_columns rest

/-- `_event_time_colnames`. -/
def _event_time_colnames : List String :=
  ["year", "month", "day", "hour", "minute", "second"]

/-- `_get_event_time_columns`: a literal `event_time` column wins;
otherwise the year/month/day[/hour/minute/second] columns are located
case-insensitively (later duplicates overwrite) and the first three are
required. -/
def _get_event_time_columns (csv_fieldnames : List String)
    (default_colname : String) : Except String (List (Option String)) :=
  if default_colname ∈ csv_fieldnames then .ok [some default_colname]
  else
    let evtime_names := csv_fieldnames.foldl
      (fun (acc : List (Option String)) fname =>
        match _event_time_colnames.findIdx? (fun x => x = pyLower fname) with
        | some index => acc.set index (some fname)
        | none => acc)
      (List.replicate 6 none)
    if (evtime_names.getD 0 none).isNone then .error "column \"year\" not found"
    else if (evtime_names.getD 1 none).isNone then
      .error "column \"month\" not found"
    else if (evtime_names.getD 2 none).isNone then
      .error "column \"day\" not found"
    else .ok evtime_names

/-- `_accel_units`. -/
def _accel_units : List String :=
  ["g", "m/s/s", "m/s**2", "m/s^2", "cm/s/s", "cm/s**2", "cm/s^2"]

/-- The loop of `_get_pga_column`: remember a literal `pga` column and a
literal `acceleration_unit` column; a field matching the PGA-unit regex
returns immediately (with its unit validated); at the end the remembered
pair (or a specific error) is produced. -/
def pgaColumnGo : List String → Option String → Option String →
    Except String (String × String)
  | [], pgacol, pgaunitcol =>
    match pgacol, pgaunitcol with
    | some p, some u => .ok (p, u)
    | some p, none =>
      .error ("provide field 'acceleration_unit' or specify unit in '"
        ++ p ++ "'")
    | none, some _ => .error "missing field 'pga'"
    | none, none => .error "no matching column found"
  | fname :: rest, pgacol, pgaunitcol =>
    if pgacol.isNone ∧ pyStripStr (pyLower fname) = "pga" then
      pgaColumnGo rest (some fname) pgaunitcol
    else if pgaunitcol.isNone ∧
        pyStripStr (pyLower fname) = "acceleration_unit" then
      pgaColumnGo rest pgacol (some fname)
    else
      match matchPrefixParen ['p', 'g', 'a'] fname with
      | some unit =>
        if unit ∈ _accel_units then .ok (fname, unit)
        else .error ("unit not in ['g', 'm/s/s', 'm/s**2', 'm/s^2', "
          ++ "'cm/s/s', 'cm/s**2', 'cm/s^2']")
      | none => pgaColumnGo rest pgacol pgaunitcol

/-- `_get_pga_column`. -/
def _get_pga_column (csv_fieldnames : List String) :
    Except String (String × String) :=
  pgaColumnGo csv_fieldnames none none

/-- `newfieldnames`: rename csv fields through the class `mappings`. -/
def applyMappings (mappings : List (String × String))
    (fieldnames : List String) : List String :=
  fieldnames.map fun f =>
    match mappings.lookup f with
    | some v => v
    | none => f

/-- The resolved header configuration of one `_rows` run. -/
structure RowsConfig where
  spectra_fieldnames : List String
  spectra_periods : List PyFloat
  evtime_fieldnames : List (Option String)
  pga_col : String
  pga_unit : String
deriving Repr

/-- The front part of `_rows`: apply the mappings, then resolve the
spectral columns, the event-time columns and the PGA column — in that
order, each failure wrapped into the corresponding `ValueError` — before
any data row is touched. -/
def resolveHeader (mappings : List (String × String))
    (fieldnames : List String) : Except String RowsConfig :=
  let newfieldnames := applyMappings mappings fieldnames
  match _get_sa_columns newfieldnames with
  | .error e => .error ("Unable to parse SA columns: " ++ e)
  | .ok (sf, sp) =>
    match _get_event_time_columns newfieldnames "event_time" with
    | .error e => .error ("Unable to parse event time column(s): " ++ e)
    | .ok ev =>
      match _get_pga_column newfieldnames with
      | .error e => .error ("Unable to parse PGA column: " ++ e)
      | .ok pu => .ok ⟨sf, sp, ev, pu.1, pu.2⟩

/-! ### The `parse` run (`GMDatabaseParser.parse` over `_rows` and
`_writerow`)

A `NormRow` carries what the loop body of `parse` reads from a rowdict
after the per-row normalization steps of `_rows` (field re-mapping, SA
interpolation, event-time and PGA assignment, `parse_row`) — all of
which are wrapped in per-step `try/except` and can only leave fields
absent, never abort the row: the castable float cell contents for the
table writer, the stored `event_time` string cell (string columns carry
no bounds and feed `_hash` unquantized), and the two values the sanity
check extracts.  A sanity-check failure replaces the rowdict with `{}`,
which `parse` counts as an error row and does not write.  `_writerow`
itself ends by computing the identity triple with `get_ids` on the
stored row — outside any `try/except` — so the `OverflowError` that
`_toint` raises when an unbounded id field (`pga`, `hypocenter_depth`)
holds an infinity propagates out of `parse` and aborts the run. -/

structure NormRow where
  cells : String → CellIn
  event_time : String
  pga : Option PyFloat
  sa0 : Option PyFloat

/-- Read one float field of the stored row as `get_ids` does (scalar
columns are singleton vectors; a column absent from the schema keeps
pytables' float default NaN). -/
def storedFloat (stored : List (String × List PyFloat)) (col : String) :
    PyFloat :=
  match stored.lookup col with
  | some (v :: _) => v
  | _ => PyFloat.nan

/-- The tail of `_writerow`: the `get_ids` call on the stored row.  It
is not wrapped in any `try/except`, so an `OverflowError` raised by
`_toint` on an infinite stored value propagates to the caller. -/
def writerowIds (stored : List (String × List PyFloat))
    (event_time dbname : String) :
    Except String (List ℕ × List ℕ × List ℕ) :=
  get_ids
    { pga := storedFloat stored "pga"
      event_longitude := storedFloat stored "event_longitude"
      event_latitude := storedFloat stored "event_latitude"
      hypocenter_depth := storedFloat stored "hypocenter_depth"
      event_time := event_time
      station_longitude := storedFloat stored "station_longitude"
      station_latitude := storedFloat stored "station_latitude" }
    dbname

/-- Per-run statistics, as returned by `parse`. -/
structure ParseStats where
  total : ℕ
  written : ℕ
  error : List ℕ
  missing_values : String → ℕ
  outofbound_values : String → ℕ

/-- `for col in cols: counter[col] += 1`. -/
def bumpAll (f : String → ℕ) (cols : List String) : String → ℕ :=
  cols.foldl (fun g c => fun x => if x = c then g x + 1 else g x) f

/-- The loop of `parse` from row index `i` on: a row that passed the
sanity check goes through `_writerow` — the bound-checked cell writes,
then the identity computation, whose uncaught `OverflowError` aborts
the whole run — and its missing / out-of-bound columns are counted; an
empty rowdict appends its index to the error list.  On completion
returns (error indices, missing counters, out-of-bound counters,
written table rows). -/
def parseGo (schema : List (String × ColSpec)) (dbname : String) :
    List NormRow → ℕ →
    Except String (List ℕ × (String → ℕ) × (String → ℕ) ×
      List (List (String × List PyFloat)))
  | [], _ => .ok ([], fun _ => 0, fun _ => 0, [])
  | r :: rest, i =>
    if pga_sa_unit_ok r.pga r.sa0 then
      let w := writeRowCols schema r.cells
      match writerowIds w.1 r.event_time dbname with
      | .error e => .error e
      | .ok _ =>
        match parseGo schema dbname rest (i + 1) with
        | .error e => .error e
        | .ok acc =>
          .ok (acc.1, bumpAll acc.2.1 w.2.1, bumpAll acc.2.2.1 w.2.2,
            w.1 :: acc.2.2.2)
    else
      match parseGo schema dbname rest (i + 1) with
      | .error e => .error e
      | .ok acc => .ok (i :: acc.1, acc.2.1, acc.2.2.1, acc.2.2.2)

/-- One `parse` run: resolve the header up front (a failure there is
the run's failure, before any row is consumed), then stream the rows —
an id-computation error aborts the run — and on completion return the
statistics dict, with `total = i + 1` for the final enumeration index
and `written = total - len(error)`, plus the table contents written. -/
def parseModel (schema : List (String × ColSpec))
    (mappings : List (String × String)) (fieldnames : List String)
    (dbname : String) (rows : List NormRow) :
    Except String (ParseStats × List (List (String × List PyFloat))) :=
  match resolveHeader mappings fieldnames with
  | .error e => .error e
  | .ok _ =>
    match parseGo schema dbname rows 0 with
    | .error e => .error e
    | .ok acc =>
      .ok (⟨rows.length, rows.length - acc.1.length, acc.1, acc.2.1,
            acc.2.2.1⟩, acc.2.2.2)

/-- One unfolding of the `parse` loop. -/
theorem parseGo_cons (schema : List (String × ColSpec)) (dbname : String)
    (r : NormRow) (rest : List NormRow) (i : ℕ) :
    parseGo schema dbname (r :: rest) i =
      if pga_sa_unit_ok r.pga r.sa0 then
        match writerowIds (writeRowCols schema r.cells).1 r.event_time
            dbname with
        | .error e => .error e
        | .ok _ =>
          match parseGo schema dbname rest (i + 1) with
          | .error e => .error e
          | .ok acc =>
            .ok (acc.1,
              bumpAll acc.2.1 (writeRowCols schema r.cells).2.1,
              bumpAll acc.2.2.1 (writeRowCols schema r.cells).2.2,
              (writeRowCols schema r.cells).1 :: acc.2.2.2)
      else
        match parseGo schema dbname rest (i + 1) with
        | .error e => .error e
        | .ok acc => .ok (i :: acc.1, acc.2.1, acc.2.2.1, acc.2.2.2) := by
  by_cases h : pga_sa_unit_ok r.pga r.sa0 <;> simp [parseGo, h]

/-- For a completed loop: the error list is strictly increasing within
the processed range, membership in it characterizes the sanity
failures, and the written rows are exactly the sanity-passing rows
through `_writerow`. -/
theorem parseGo_ok_facts (schema : List (String × ColSpec))
    (dbname : String) :
    ∀ (rows : List NormRow) (i : ℕ) acc,
      parseGo schema dbname rows i = .ok acc →
      (List.Chain' (· < ·) acc.1 ∧
        ∀ e ∈ acc.1, i ≤ e ∧ e < i + rows.length) ∧
      acc.2.2.2 = (rows.filter fun r => pga_sa_unit_ok r.pga r.sa0).map
        (fun r => (writeRowCols schema r.cells).1) ∧
      (∀ j r, rows[j]? = some r →
        ((i + j) ∈ acc.1 ↔ pga_sa_unit_ok r.pga r.sa0 = false)) := by
  intro rows
  induction rows with
  | nil =>
    intro i acc h
    simp only [parseGo, Except.ok.injEq] at h
    subst h
    refine ⟨⟨by simp, by simp⟩, by simp, ?_⟩
    intro j r hj
    simp at hj
  | cons r rest ih =>
    intro i acc h
    rw [parseGo_cons] at h
    by_cases hs : pga_sa_unit_ok r.pga r.sa0
    · rw [if_pos hs] at h
      cases hw : writerowIds (writeRowCols schema r.cells).1 r.event_time
          dbname with
      | error e2 => rw [hw] at h; cases h
      | ok t =>
        rw [hw] at h
        cases hrec : parseGo schema dbname rest (i + 1) with
        | error e2 => rw [hrec] at h; cases h
        | ok acc2 =>
          rw [hrec] at h
          obtain ⟨⟨ihc, ihb⟩, ihw, ihm⟩ := ih (i + 1) acc2 hrec
          cases h
          refine ⟨⟨ihc, ?_⟩, ?_, ?_⟩
          · intro e he
            have := ihb e he
            simp only [List.length_cons]
            omega
          · simp [List.filter_cons, hs, ihw]
          · intro j r2 hj
            cases j with
            | zero =>
              simp only [List.getElem?_cons_zero, Option.some.injEq] at hj
              subst hj
              simp only [Nat.add_zero]
              constructor
              · intro hmem
                have := (ihb i hmem).1
                omega
              · intro hf
                rw [hf] at hs
                cases hs
            | succ k =>
              simp only [List.getElem?_cons_succ] at hj
              have := ihm k r2 hj
              have harith : i + (k + 1) = (i + 1) + k := by omega
              rw [harith]
              exact this
    · rw [if_neg hs] at h
      cases hrec : parseGo schema dbname rest (i + 1) with
      | error e2 => rw [hrec] at h; cases h
      | ok acc2 =>
        rw [hrec] at h
        obtain ⟨⟨ihc, ihb⟩, ihw, ihm⟩ := ih (i + 1) acc2 hrec
        cases h
        refine ⟨⟨?_, ?_⟩, ?_, ?_⟩
        · refine List.chain'_cons'.mpr ⟨?_, ihc⟩
          intro b hb
          have := ihb b (List.mem_of_mem_head? hb)
          omega
        · intro e he
          rcases List.mem_cons.mp he with rfl | he
          · simp only [List.length_cons]
            omega
          · have := ihb e he
            simp only [List.length_cons]
            omega
        · simp only [List.filter_cons, hs]
          simpa using ihw
        · intro j r2 hj
          cases j with
          | zero =>
            simp only [List.getElem?_cons_zero, Option.some.injEq] at hj
            subst hj
            simp only [Nat.add_zero, List.mem_cons]
            simp only [Bool.not_eq_true] at hs
            simp [hs]
          | succ k =>
            simp only [List.getElem?_cons_succ] at hj
            have hih := ihm k r2 hj
            have harith : i + (k + 1) = (i + 1) + k := by omega
            rw [harith, List.mem_cons]
            constructor
            · rintro (heq | hmem)
              · omega
              · exact hih.mp hmem
            · intro hf
              exact Or.inr (hih.mpr hf)

/-- An aborted loop always traces back to the id computation of some
sanity-passing row — the only uncaught per-row error path. -/
theorem parseGo_error_source (schema : List (String × ColSpec))
    (dbname : String) :
    ∀ (rows : List NormRow) (i : ℕ) e,
      parseGo schema dbname rows i = .error e →
      ∃ r ∈ rows, pga_sa_unit_ok r.pga r.sa0 = true ∧
        writerowIds (writeRowCols schema r.cells).1 r.event_time dbname =
          .error e := by
  intro rows
  induction rows with
  | nil => intro i e h; simp [parseGo] at h
  | cons r rest ih =>
    intro i e h
    rw [parseGo_cons] at h
    by_cases hs : pga_sa_unit_ok r.pga r.sa0
    · rw [if_pos hs] at h
      cases hw : writerowIds (writeRowCols schema r.cells).1 r.event_time
          dbname with
      | error e2 =>
        rw [hw] at h
        cases h
        exact ⟨r, by simp, hs, hw⟩
      | ok t =>
        rw [hw] at h
        cases hrec : parseGo schema dbname rest (i + 1) with
        | error e2 =>
          rw [hrec] at h
          cases h
          obtain ⟨r2, hr2, hsan, hids⟩ := ih (i + 1) e hrec
          exact ⟨r2, List.mem_cons_of_mem r hr2, hsan, hids⟩
        | ok acc => rw [hrec] at h; cases h
    · rw [if_neg hs] at h
      cases hrec : parseGo schema dbname rest (i + 1) with
      | error e2 =>
        rw [hrec] at h
        cases h
        obtain ⟨r2, hr2, hsan, hids⟩ := ih (i + 1) e hrec
        exact ⟨r2, List.mem_cons_of_mem r hr2, hsan, hids⟩
      | ok acc => rw [hrec] at h; cases h

/-- The loop completes when every sanity-passing row's id computation
succeeds. -/
theorem parseGo_total_of_ids_ok (schema : List (String × ColSpec))
    (dbname : String) :
    ∀ (rows : List NormRow) (i : ℕ),
      (∀ r ∈ rows, pga_sa_unit_ok r.pga r.sa0 = true →
        ∃ t, writerowIds (writeRowCols schema r.cells).1 r.event_time
          dbname = .ok t) →
      ∃ acc, parseGo schema dbname rows i = .ok acc := by
  intro rows
  induction rows with
  | nil => intro i _; exact ⟨_, rfl⟩
  | cons r rest ih =>
    intro i hids
    obtain ⟨acc2, hrec⟩ := ih (i + 1)
      (fun r2 hr2 => hids r2 (List.mem_cons_of_mem r hr2))
    rw [parseGo_cons]
    by_cases hs : pga_sa_unit_ok r.pga r.sa0
    · obtain ⟨t, ht⟩ := hids r (by simp) hs
      rw [if_pos hs, ht, hrec]
      exact ⟨_, rfl⟩
    · rw [if_neg hs, hrec]
      exact ⟨_, rfl⟩

/-- C10: for every completed run, `written = total - length error`, the
error list is strictly increasing with every index below `total`,
`total` is the number of data rows, and a run over zero data rows
returns all-zero statistics with empty counters. -/
theorem parse_stats_invariants :
    (∀ (schema : List (String × ColSpec)) mappings fieldnames dbname rows
       stats written,
      parseModel schema mappings fieldnames dbname rows =
        .ok (stats, written) →
      stats.written = stats.total - stats.error.length ∧
      List.Chain' (· < ·) stats.error ∧
      (∀ e ∈ stats.error, e < stats.total) ∧
      stats.total = rows.length) ∧
    (∀ (schema : List (String × ColSpec)) mappings fieldnames cfg dbname,
      resolveHeader mappings fieldnames = .ok cfg →
      parseModel schema mappings fieldnames dbname [] =
        .ok (⟨0, 0, [], fun _ => 0, fun _ => 0⟩, [])) := by
  constructor
  · intro schema mappings fieldnames dbname rows stats written h
    cases hres : resolveHeader mappings fieldnames with
    | error e => simp [parseModel, hres] at h
    | ok cfg =>
      cases hgo : parseGo schema dbname rows 0 with
      | error e => simp [parseModel, hres, hgo] at h
      | ok acc =>
        simp only [parseModel, hres, hgo, Except.ok.injEq,
          Prod.mk.injEq] at h
        obtain ⟨hstats, hwr⟩ := h
        subst hstats
        obtain ⟨⟨hchain, hbounds⟩, hwritten, hmem⟩ :=
          parseGo_ok_facts schema dbname rows 0 acc hgo
        refine ⟨rfl, hchain, ?_, rfl⟩
        intro e he
        have := (hbounds e he).2
        simpa using this
  · intro schema mappings fieldnames cfg dbname hres
    simp [parseModel, hres, parseGo]

/-- Witness for C10 at a trivially resolvable header and one row. -/
theorem parse_stats_invariants_witness :
    parseModel [] [] ["event_time", "pga", "acceleration_unit"] "esm"
      [⟨fun _ => .absent, "", none, none⟩] =
      .ok (⟨1, 1, [], fun _ => 0, fun _ => 0⟩, [[]]) ∧
    parseModel [] [] ["event_time", "pga", "acceleration_unit"] "esm" [] =
      .ok (⟨0, 0, [], fun _ => 0, fun _ => 0⟩, []) := by
  constructor
  · rfl
  · exact parse_stats_invariants.2 [] [] ["event_time", "pga",
      "acceleration_unit"] ⟨[], [], [some "event_time"], "pga",
      "acceleration_unit"⟩ "esm" rfl

/-- `get_ids` succeeds once each of its six quantizations does. -/
theorem get_ids_ok_of_toint {row : TableRow} {dbname : String}
    {a b c d e f : HashVal}
    (h1 : toint row.pga 0 = .ok a)
    (h2 : toint row.event_longitude 5 = .ok b)
    (h3 : toint row.event_latitude 5 = .ok c)
    (h4 : toint row.hypocenter_depth 3 = .ok d)
    (h5 : toint row.station_longitude 5 = .ok e)
    (h6 : toint row.station_latitude 5 = .ok f) :
    ∃ t, get_ids row dbname = .ok t :=
  ⟨(pyHash [b, c, d, .str row.event_time], pyHash [e, f],
    pyHash [.str dbname, a, b, c, d, .str row.event_time, e, f]),
   by simp [get_ids, h1, h2, h3, h4, h5, h6, bind, Except.bind, pure,
    Except.pure]⟩

/-- The unbounded `pga` column alone. -/
def pgaOnlySchema : List (String × ColSpec) := [("pga", ⟨none, none, [.nan]⟩)]

/-- A normalized row whose stored `pga` cell is the float infinity (as a
csv cell `1e999` produces in the unbounded Float64 `pga` column); its
`sa` is absent, so the sanity check passes the row. -/
def infPgaRow : NormRow :=
  ⟨fun c => if c = "pga" then .val [.inf] else .absent, "", some .inf, none⟩

/-- Counterexample to C7 as stated: the claim says per-row faults never
abort the run, but `_writerow`'s final `get_ids` call is outside every
`try/except`: on a row whose stored `pga` is infinite (the column is
unbounded, so the bounds check keeps the value) `_toint` reaches
`round(inf)`, and the uncaught `OverflowError` aborts the run
mid-stream even though the header resolved. -/
theorem rows_abort_on_infinite_id_cex :
    resolveHeader [] ["event_time", "pga", "acceleration_unit"] =
      .ok ⟨[], [], [some "event_time"], "pga", "acceleration_unit"⟩ ∧
    parseModel pgaOnlySchema [] ["event_time", "pga", "acceleration_unit"]
      "esm" [infPgaRow] =
      .error "OverflowError: cannot convert float infinity to integer" ∧
    ∀ stats written,
      parseModel pgaOnlySchema []
        ["event_time", "pga", "acceleration_unit"] "esm" [infPgaRow] ≠
        .ok (stats, written) := by
  have habort : parseModel pgaOnlySchema []
      ["event_time", "pga", "acceleration_unit"] "esm" [infPgaRow] =
      .error "OverflowError: cannot convert float infinity to integer" := rfl
  refine ⟨rfl, habort, fun stats written h => ?_⟩
  rw [habort] at h
  cases h

/-- C7 (amended): the spectral-column set, the event-time column group
and the PGA column/unit are resolved once, from the header alone,
before any data row is processed — a resolution failure fails the whole
run identically for every row list, and resolution fails exactly when
one of the three resolutions fails.  Per-row normalization faults only
leave fields absent and never abort the run by themselves: with a
resolved header the run completes whenever every sanity-passing row's
identity computation succeeds, and the only mid-stream abort is an
error of that unguarded id computation (the `OverflowError` of
`_toint` on an infinite stored id field). -/
theorem rows_resolution_up_front :
    (∀ (mappings : List (String × String)) (fieldnames : List String) e,
      resolveHeader mappings fieldnames = .error e →
      ∀ (schema : List (String × ColSpec)) dbname rows,
        parseModel schema mappings fieldnames dbname rows = .error e) ∧
    (∀ (mappings : List (String × String)) (fieldnames : List String) cfg
       dbname (schema : List (String × ColSpec)) rows,
      resolveHeader mappings fieldnames = .ok cfg →
      (∀ r ∈ rows, pga_sa_unit_ok r.pga r.sa0 = true →
        ∃ t, writerowIds (writeRowCols schema r.cells).1 r.event_time
          dbname = .ok t) →
      ∃ stats written,
        parseModel schema mappings fieldnames dbname rows =
          .ok (stats, written)) ∧
    (∀ (mappings : List (String × String)) (fieldnames : List String) cfg
       dbname (schema : List (String × ColSpec)) rows e,
      resolveHeader mappings fieldnames = .ok cfg →
      parseModel schema mappings fieldnames dbname rows = .error e →
      ∃ r ∈ rows, pga_sa_unit_ok r.pga r.sa0 = true ∧
        writerowIds (writeRowCols schema r.cells).1 r.event_time dbname =
          .error e) ∧
    (∀ (mappings : List (String × String)) (fieldnames : List String),
      (∃ e, resolveHeader mappings fieldnames = .error e) ↔
        ((∃ e, _get_sa_columns (applyMappings mappings fieldnames) =
          .error e) ∨
         (∃ e, _get_event_time_columns (applyMappings mappings fieldnames)
            "event_time" = .error e) ∨
         (∃ e, _get_pga_column (applyMappings mappings fieldnames) =
          .error e))) := by
  refine ⟨?_, ?_, ?_, ?_⟩
  · intro mappings fieldnames e h schema dbname rows
    simp [parseModel, h]
  · intro mappings fieldnames cfg dbname schema rows h hids
    obtain ⟨acc, hacc⟩ := parseGo_total_of_ids_ok schema dbname rows 0 hids
    refine ⟨⟨rows.length, rows.length - acc.1.length, acc.1, acc.2.1,
      acc.2.2.1⟩, acc.2.2.2, ?_⟩
    simp [parseModel, h, hacc]
  · intro mappings fieldnames cfg dbname schema rows e h habort
    cases hgo : parseGo schema dbname rows 0 with
    | error e2 =>
      have : e2 = e := by
        simp only [parseModel, h, hgo, Except.error.injEq] at habort
        exact habort
      subst this
      exact parseGo_error_source schema dbname rows 0 _ hgo
    | ok acc => simp [parseModel, h, hgo] at habort
  · intro mappings fieldnames
    cases h1 : _get_sa_columns (applyMappings mappings fieldnames) with
    | error e1 => exact ⟨fun _ => Or.inl ⟨e1, rfl⟩,
        fun _ => ⟨"Unable to parse SA columns: " ++ e1,
          by simp [resolveHeader, h1]⟩⟩
    | ok sa =>
      cases h2 : _get_event_time_columns (applyMappings mappings fieldnames)
          "event_time" with
      | error e2 => exact ⟨fun _ => Or.inr (Or.inl ⟨e2, rfl⟩),
          fun _ => ⟨"Unable to parse event time column(s): " ++ e2,
            by simp [resolveHeader, h1, h2]⟩⟩
      | ok ev =>
        cases h3 : _get_pga_column (applyMappings mappings fieldnames) with
        | error e3 => exact ⟨fun _ => Or.inr (Or.inr ⟨e3, rfl⟩),
            fun _ => ⟨"Unable to parse PGA column: " ++ e3,
              by simp [resolveHeader, h1, h2, h3]⟩⟩
        | ok pu =>
          constructor
          · rintro ⟨e, he⟩
            simp [resolveHeader, h1, h2, h3] at he
          · rintro (⟨e, he⟩ | ⟨e, he⟩ | ⟨e, he⟩) <;>
              simp_all

/-- Witness for C7 (amended): a header missing its groups fails the run
for a concrete row list, while a complete header with a benign (all-NaN
id fields) row completes. -/
theorem rows_resolution_up_front_witness :
    parseModel [] [] ["foo"] "esm" [⟨fun _ => .absent, "", none, none⟩] =
      .error "Unable to parse event time column(s): column \"year\" not found" ∧
    (∃ stats written,
      parseModel [] [] ["event_time", "pga", "acceleration_unit"] "esm"
        [⟨fun _ => .absent, "", none, none⟩] = .ok (stats, written)) :=
  ⟨rows_resolution_up_front.1 [] ["foo"]
      "Unable to parse event time column(s): column \"year\" not found" rfl
      [] "esm" [⟨fun _ => .absent, "", none, none⟩],
   rows_resolution_up_front.2.1 [] ["event_time", "pga",
      "acceleration_unit"] ⟨[], [], [some "event_time"], "pga",
      "acceleration_unit"⟩ "esm" [] [⟨fun _ => .absent, "", none, none⟩]
      rfl
      (fun r hr _ => by
        simp only [List.mem_singleton] at hr
        subst hr
        exact get_ids_ok_of_toint rfl rfl rfl rfl rfl rfl)⟩

/-! ### Theorems on the sanity check -/

theorem qroundHalfEven_zero : qroundHalfEven 0 = 0 := by
  norm_num [qroundHalfEven]

theorem qroundHalfEven_one : qroundHalfEven 1 = 1 := by
  norm_num [qroundHalfEven]

/-- Python `max` on two finite floats is the rational `max`. -/
theorem pyMax_val (a b : ℚ) : pyMax (.val a) (.val b) = .val (max a b) := by
  simp only [pyMax, pyGt]
  rcases le_or_lt b a with h | h
  · rw [if_neg (by simpa using not_lt.mpr h), max_eq_left h]
  · rw [if_pos (by simpa using h), max_eq_right h.le]

/-- Python `min` on two finite floats is the rational `min`. -/
theorem pyMin_val (a b : ℚ) : pyMin (.val a) (.val b) = .val (min a b) := by
  simp only [pyMin, pyLt, pyGt]
  rcases le_or_lt a b with h | h
  · rw [if_neg (by simpa using not_lt.mpr h), min_eq_left h]
  · rw [if_pos (by simpa using h), min_eq_right h.le]

/-- With a non-finite value on either side (or NaN), the check always
passes. -/
theorem pga_sa_unit_ok_nonfinite :
    ∀ a b : PyFloat,
      (a = .nan ∨ a = .inf ∨ a = .ninf ∨ b = .nan ∨ b = .inf ∨ b = .ninf) →
      pga_sa_unit_ok (some a) (some b) = true := by
  have hg : ¬(100 * gQ = 0) := by norm_num [gQ]
  have hgpos : (0:ℚ) < 100 * gQ := by norm_num [gQ]
  intro a b hab
  rcases hab with rfl | rfl | rfl | rfl | rfl | rfl
  · cases b <;> simp [pga_sa_unit_ok, pyDiv, hg, pyMax, pyMin, pyLt, pyGt,
      pyAbs, pyIsNan]
  · cases b with
    | val q =>
      by_cases hq : q = 0 <;>
        by_cases hqp : 0 < q <;>
        simp [pga_sa_unit_ok, pyDiv, hg, hgpos, hq, hqp, pyMax, pyMin, pyLt,
          pyGt, pyAbs, pyIsNan, pyRound, qroundHalfEven_zero]
    | _ => simp_all [pga_sa_unit_ok, pyDiv, hg, hgpos, pyMax, pyMin, pyLt,
        pyGt, pyAbs, pyIsNan, pyRound]
  · cases b with
    | val q =>
      by_cases hq : q = 0 <;>
        by_cases hqp : 0 < q <;>
        simp [pga_sa_unit_ok, pyDiv, hg, hgpos, hq, hqp, pyMax, pyMin, pyLt,
          pyGt, pyAbs, pyIsNan, pyRound, qroundHalfEven_zero]
    | _ => simp_all [pga_sa_unit_ok, pyDiv, hg, hgpos, pyMax, pyMin, pyLt,
        pyGt, pyAbs, pyIsNan, pyRound]
  · cases a with
    | val q =>
      by_cases hq : q = 0
      · simp [pga_sa_unit_ok, pyDiv, hg, hq, pyMax, pyMin, pyLt, pyGt,
          pyAbs, pyIsNan, pyRound]
      · have hq2 : q / (100 * gQ) ≠ 0 := by
          simp [div_eq_zero_iff, hq, hg]
        simp [pga_sa_unit_ok, pyDiv, hg, hq, pyMax, pyMin, pyLt,
          pyGt, pyAbs, pyIsNan, pyRound, div_self hq2, abs_one,
          qroundHalfEven_one]
    | _ => simp_all [pga_sa_unit_ok, pyDiv, hg, hgpos, pyMax, pyMin, pyLt,
        pyGt, pyAbs, pyIsNan, pyRound]
  · cases a with
    | val q =>
      by_cases hq : q = 0 <;>
        by_cases hqp : 0 < q <;>
        simp [pga_sa_unit_ok, pyDiv, hg, hgpos, hq, hqp, pyMax, pyMin, pyLt,
          pyGt, pyAbs, pyIsNan, pyRound, qroundHalfEven_zero]
    | _ => simp_all [pga_sa_unit_ok, pyDiv, hg, hgpos, pyMax, pyMin, pyLt,
        pyGt, pyAbs, pyIsNan, pyRound]
  · cases a with
    | val q =>
      simp [pga_sa_unit_ok, pyDiv, hg, hgpos, pyMax, pyMin, pyLt, pyGt,
        pyAbs, pyIsNan, pyRound, abs_zero, qroundHalfEven_zero]
    | _ => simp_all [pga_sa_unit_ok, pyDiv, hg, hgpos, pyMax, pyMin, pyLt,
        pyGt, pyAbs, pyIsNan, pyRound]

/-- On two finite values the check fails exactly when the min is nonzero
and the half-even rounding of `|max / min|` reaches 10. -/
theorem pga_sa_unit_ok_finite_iff (p s : ℚ) :
    pga_sa_unit_ok (some (.val p)) (some (.val s)) = false ↔
      (min (p / (100 * gQ)) s ≠ 0 ∧
        10 ≤ qroundHalfEven
          |max (p / (100 * gQ)) s / min (p / (100 * gQ)) s|) := by
  have hg : (100 * gQ) ≠ 0 := by norm_num [gQ]
  simp only [pga_sa_unit_ok, pyDiv, if_neg hg, pyMax_val, pyMin_val]
  by_cases hz : min (p / (100 * gQ)) s = 0
  · simp [hz]
  · simp only [if_neg hz, pyAbs, pyIsNan]
    simp [pyRound, hz, not_lt]

/-- The `parse`-level consequence of a sanity failure: the written table
rows are exactly the passing rows, and an index is in the error list
exactly when its row failed the check. -/
theorem parseModel_sanity (schema : List (String × ColSpec))
    (mappings : List (String × String)) (fieldnames : List String)
    (dbname : String) (rows : List NormRow) (stats : ParseStats)
    (written : List (List (String × List PyFloat)))
    (h : parseModel schema mappings fieldnames dbname rows =
      .ok (stats, written)) :
    written = (rows.filter fun r => pga_sa_unit_ok r.pga r.sa0).map
      (fun r => (writeRowCols schema r.cells).1) ∧
    ∀ j r, rows[j]? = some r →
      (j ∈ stats.error ↔ pga_sa_unit_ok r.pga r.sa0 = false) := by
  cases hres : resolveHeader mappings fieldnames with
  | error e => simp [parseModel, hres] at h
  | ok cfg =>
    cases hgo : parseGo schema dbname rows 0 with
    | error e => simp [parseModel, hres, hgo] at h
    | ok acc =>
      simp only [parseModel, hres, hgo, Except.ok.injEq,
        Prod.mk.injEq] at h
      obtain ⟨hstats, hwr⟩ := h
      subst hstats
      subst hwr
      obtain ⟨_, hwritten, hmem⟩ := parseGo_ok_facts schema dbname rows 0 acc hgo
      refine ⟨hwritten, ?_⟩
      intro j r hj
      simpa using hmem j r hj

/-- Counterexample to C6 as stated: with PGA = 950·g cm/s² (= 9.5 g) and
SA at the shortest period = 1 (g), both finite, the ratio max/min is
9.5 — strictly below 10, so the claim says the row passes — yet the code
rejects the row, because it tests `round(retol) >= 10` and the half-even
rounding of 9.5 is 10. -/
theorem pga_sa_unit_cex :
    pga_sa_unit_ok (some (.val (950 * gQ))) (some (.val 1)) = false ∧
    max ((950 * gQ) / (100 * gQ)) 1 / min ((950 * gQ) / (100 * gQ)) 1 =
      19 / 2 ∧ ((19 : ℚ) / 2) < 10 := by
  refine ⟨?_, by norm_num [gQ], by norm_num⟩
  norm_num [pga_sa_unit_ok, pyDiv, pyMax, pyMin, pyGt, pyLt, pyAbs, pyIsNan,
    pyRound, qroundHalfEven, gQ]
  have h1 : |((19:ℚ)/2)| = 19/2 := by norm_num
  rw [h1]
  have h2 : Int.fract ((19:ℚ)/2) = 1/2 := by
    unfold Int.fract
    norm_num
  rw [h2]
  norm_num

/-- C6 (amended): a normalized row is rejected as a unit mismatch
exactly when both PGA (in g) and the shortest-period SA value are finite,
their min is nonzero and the half-even rounding of `|max / min|` is at
least 10 (so ratios from 9.5 up are rejected); with either value
missing or non-finite, or on a zero divisor, the row passes; a rejected
row is not written to the table and its zero-based index lands in the
run's error list. -/
theorem pga_sa_unit_row_rejection :
    (∀ p s : ℚ,
      pga_sa_unit_ok (some (.val p)) (some (.val s)) = false ↔
        (min (p / (100 * gQ)) s ≠ 0 ∧
          10 ≤ qroundHalfEven
            |max (p / (100 * gQ)) s / min (p / (100 * gQ)) s|)) ∧
    (∀ a b : PyFloat,
      (a = .nan ∨ a = .inf ∨ a = .ninf ∨ b = .nan ∨ b = .inf ∨ b = .ninf) →
      pga_sa_unit_ok (some a) (some b) = true) ∧
    (∀ x, pga_sa_unit_ok none x = true) ∧
    (∀ x, pga_sa_unit_ok x none = true) ∧
    (∀ (schema : List (String × ColSpec)) mappings fieldnames dbname rows
       stats written,
      parseModel schema mappings fieldnames dbname rows =
        .ok (stats, written) →
      written = (rows.filter fun r => pga_sa_unit_ok r.pga r.sa0).map
        (fun r => (writeRowCols schema r.cells).1) ∧
      ∀ j r, rows[j]? = some r →
        (j ∈ stats.error ↔ pga_sa_unit_ok r.pga r.sa0 = false)) := by
  refine ⟨pga_sa_unit_ok_finite_iff, pga_sa_unit_ok_nonfinite, ?_, ?_, ?_⟩
  · intro x; cases x <;> rfl
  · intro x; cases x <;> rfl
  · intro schema mappings fieldnames dbname rows stats written h
    exact parseModel_sanity schema mappings fieldnames dbname rows stats
      written h

/-- Witness for C6 (amended) at the boundary ratio 9.5 and at a NaN
input. -/
theorem pga_sa_unit_row_rejection_witness :
    (pga_sa_unit_ok (some (.val (950 * gQ))) (some (.val 1)) = false ↔
      (min ((950 * gQ) / (100 * gQ)) 1 ≠ 0 ∧
        10 ≤ qroundHalfEven
          |max ((950 * gQ) / (100 * gQ)) 1 /
            min ((950 * gQ) / (100 * gQ)) 1|)) ∧
    pga_sa_unit_ok (some .nan) (some (.val 1)) = true :=
  ⟨pga_sa_unit_row_rejection.1 (950 * gQ) 1,
   pga_sa_unit_row_rejection.2.1 .nan (.val 1) (Or.inl rfl)⟩

/-! ### `normalize_dtime`

`datetime.strptime` over the four accepted formats is modelled by
character-level parsers reproducing CPython's `_strptime` behaviour:
`%Y` is exactly four digits, `%m` / `%d` / `%H` / `%M` / `%S` are one or
two digits (maximal munch — equivalent to the `_strptime` regexes under
the full-match requirement, since the surrounding separators are never
digits) with the value ranges the `datetime` constructor enforces, a
whitespace in the format matches a run of whitespace, and the literal
`T` matches case-insensitively (`_strptime` compiles with
`re.IGNORECASE`).  `datetime.strftime('%Y-%m-%dT%H:%M:%S')` is rendered
with zero-padded fields as documented. -/

/-- A validated datetime (what the `datetime` constructor accepts). -/
structure DTime where
  year : ℕ
  month : ℕ
  day : ℕ
  hour : ℕ
  minute : ℕ
  second : ℕ
deriving DecidableEq, Repr

/-- `%Y`: exactly four digits. -/
def parse4Digits : List Char → Option (ℕ × List Char)
  | a :: b :: c :: d :: rest =>
    if a.isDigit ∧ b.isDigit ∧ c.isDigit ∧ d.isDigit then
      some ((a.toNat - 48) * 1000 + (b.toNat - 48) * 100 +
        (c.toNat - 48) * 10 + (d.toNat - 48), rest)
    else none
  | _ => none

/-- `%m`/`%d`/`%H`/`%M`/`%S`: one or two digits, maximal munch. -/
def parse2Digits : List Char → Option (ℕ × List Char)
  | a :: b :: rest =>
    if a.isDigit then
      if b.isDigit then some ((a.toNat - 48) * 10 + (b.toNat - 48), rest)
      else some (a.toNat - 48, b :: rest)
    else none
  | [a] => if a.isDigit then some (a.toNat - 48, []) else none
  | [] => none

/-- `%Y-%m-%d`. -/
def parseYMD (cs : List Char) : Option ((ℕ × ℕ × ℕ) × List Char) :=
  match parse4Digits cs with
  | some (y, '-' :: r2) =>
    match parse2Digits r2 with
    | some (m, '-' :: r4) =>
      match parse2Digits r4 with
      | some (d, r5) => some ((y, m, d), r5)
      | none => none
    | _ => none
  | _ => none

/-- `%H:%M:%S`. -/
def parseHMS (cs : List Char) : Option ((ℕ × ℕ × ℕ) × List Char) :=
  match parse2Digits cs with
  | some (hh, ':' :: r2) =>
    match parse2Digits r2 with
    | some (mm, ':' :: r4) =>
      match parse2Digits r4 with
      | some (ss, r5) => some ((hh, mm, ss), r5)
      | none => none
    | _ => none
  | _ => none

/-- The literal `T` separator (case-insensitive under `re.IGNORECASE`). -/
def parseSepT : List Char → Option (List Char)
  | c :: r => if c = 'T' ∨ c = 't' then some r else none
  | [] => none

/-- A whitespace in the format: one or more whitespace characters. -/
def parseSepWs : List Char → Option (List Char)
  | c :: r => if isPyWs c then some (r.dropWhile isPyWs) else none
  | [] => none

/-- Gregorian leap year. -/
def isLeap (y : ℕ) : Bool := y % 4 = 0 ∧ (y % 100 ≠ 0 ∨ y % 400 = 0)

/-- Length of a month. -/
def daysInMonth (y m : ℕ) : ℕ :=
  if m = 2 then (if isLeap y then 29 else 28)
  else if m = 4 ∨ m = 6 ∨ m = 9 ∨ m = 11 then 30
  else 31

/-- The ranges the `datetime` constructor accepts. -/
def validDTime (t : DTime) : Bool :=
  1 ≤ t.year ∧ t.year ≤ 9999 ∧ 1 ≤ t.month ∧ t.month ≤ 12 ∧
    1 ≤ t.day ∧ t.day ≤ daysInMonth t.year t.month ∧
    t.hour ≤ 23 ∧ t.minute ≤ 59 ∧ t.second ≤ 59

/-- `strptime` for `%Y-%m-%d<sep>%H:%M:%S` with the given separator
parser, requiring the whole string to be consumed. -/
def strptimeFull (sep : List Char → Option (List Char)) (s : String) :
    Option DTime :=
  match parseYMD s.data with
  | some ((y, m, d), r1) =>
    match sep r1 with
    | some r2 =>
      match parseHMS r2 with
      | some ((hh, mm, ss), []) =>
        if validDTime ⟨y, m, d, hh, mm, ss⟩ then some ⟨y, m, d, hh, mm, ss⟩
        else none
      | _ => none
    | none => none
  | none => none

/-- `strptime` for `%Y-%m-%d`. -/
def strptimeDate (s : String) : Option DTime :=
  match parseYMD s.data with
  | some ((y, m, d), []) =>
    if validDTime ⟨y, m, d, 0, 0, 0⟩ then some ⟨y, m, d, 0, 0, 0⟩ else none
  | _ => none

/-- `strptime` for `%Y`. -/
def strptimeYear (s : String) : Option DTime :=
  match parse4Digits s.data with
  | some (y, []) =>
    if validDTime ⟨y, 1, 1, 0, 0, 0⟩ then some ⟨y, 1, 1, 0, 0, 0⟩ else none
  | _ => none

/-- Zero-pad to two digits. -/
def pad2 (n : ℕ) : String := if n < 10 then "0" ++ toString n else toString n

/-- Zero-pad to four digits. -/
def pad4 (n : ℕ) : String :=
  if n < 10 then "000" ++ toString n
  else if n < 100 then "00" ++ toString n
  else if n < 1000 then "0" ++ toString n
  else toString n

/-- `dtime.strftime('%Y-%m-%dT%H:%M:%S')`. -/
def strftimeISO (t : DTime) : String :=
  pad4 t.year ++ "-" ++ pad2 t.month ++ "-" ++ pad2 t.day ++ "T" ++
    pad2 t.hour ++ ":" ++ pad2 t.minute ++ ":" ++ pad2 t.second

/-- `normalize_dtime` on a string input: try the four formats in order,
render the first success in full ISO form, raise `ValueError` when all
fail. -/
def normalize_dtime (s : String) : Except String String :=
  match strptimeFull parseSepT s with
  | some t => .ok (strftimeISO t)
  | none =>
    match strptimeFull parseSepWs s with
    | some t => .ok (strftimeISO t)
    | none =>
      match strptimeDate s with
      | some t => .ok (strftimeISO t)
      | none =>
        match strptimeYear s with
        | some t => .ok (strftimeISO t)
        | none => .error ("Unparsable as date-time: \"" ++ s ++ "\"")

/-- A whitespace character is not a `T`. -/
theorem isPyWs_not_T {c : Char} (h : isPyWs c = true) :
    ¬(c = 'T' ∨ c = 't') := by
  rintro (rfl | rfl) <;> simp [isPyWs] at h

/-- A string in the space-separated format is not in the `T`-separated
format (the separator position is fixed by the shared date parser). -/
theorem strptimeT_none_of_ws {s : String} {t : DTime}
    (h : strptimeFull parseSepWs s = some t) :
    strptimeFull parseSepT s = none := by
  unfold strptimeFull at h ⊢
  cases hy : parseYMD s.data with
  | none => simp [hy] at h
  | some v =>
    obtain ⟨⟨y, m, d⟩, r1⟩ := v
    rw [hy] at h
    cases r1 with
    | nil => simp [parseSepWs] at h
    | cons c rest =>
      by_cases hw : isPyWs c
      · have hnt : ¬(c = 'T' ∨ c = 't') := isPyWs_not_T hw
        simp [parseSepT, hnt]
      · simp [parseSepWs, hw] at h

/-- A string in the date-only format fails both datetime formats. -/
theorem strptimeFull_none_of_date {s : String} {t : DTime}
    (h : strptimeDate s = some t) (sep : List Char → Option (List Char))
    (hsep : sep [] = none) : strptimeFull sep s = none := by
  unfold strptimeDate at h
  unfold strptimeFull
  cases hy : parseYMD s.data with
  | none => simp [hy] at h
  | some v =>
    obtain ⟨⟨y, m, d⟩, r1⟩ := v
    rw [hy] at h
    cases r1 with
    | nil => simp [hsep]
    | cons c rest => simp at h

/-- A string in the year-only format does not even parse a `%Y-%m-%d`
date (nothing follows the four digits). -/
theorem parseYMD_none_of_year {s : String} {t : DTime}
    (h : strptimeYear s = some t) : parseYMD s.data = none := by
  unfold strptimeYear at h
  cases h4 : parse4Digits s.data with
  | none => simp [h4] at h
  | some v =>
    obtain ⟨y, r⟩ := v
    rw [h4] at h
    cases r with
    | nil =>
      unfold parseYMD
      rw [h4]
    | cons c rest => simp at h

/-- The shape of a year-only parse. -/
theorem strptimeYear_shape {s : String} {t : DTime}
    (h : strptimeYear s = some t) :
    t.month = 1 ∧ t.day = 1 ∧ t.hour = 0 ∧ t.minute = 0 ∧ t.second = 0 := by
  unfold strptimeYear at h
  cases h4 : parse4Digits s.data with
  | none => simp [h4] at h
  | some v =>
    obtain ⟨y, r⟩ := v
    rw [h4] at h
    cases r with
    | nil =>
      by_cases hv : validDTime ⟨y, 1, 1, 0, 0, 0⟩
      · simp [hv] at h
        subst h
        exact ⟨rfl, rfl, rfl, rfl, rfl⟩
      · simp [hv] at h
    | cons c rest => simp at h

/-- The shape of a date-only parse. -/
theorem strptimeDate_shape {s : String} {t : DTime}
    (h : strptimeDate s = some t) :
    t.hour = 0 ∧ t.minute = 0 ∧ t.second = 0 := by
  unfold strptimeDate at h
  cases hy : parseYMD s.data with
  | none => simp [hy] at h
  | some v =>
    obtain ⟨⟨y, m, d⟩, r1⟩ := v
    rw [hy] at h
    cases r1 with
    | nil =>
      by_cases hv : validDTime ⟨y, m, d, 0, 0, 0⟩
      · simp [hv] at h
        subst h
        exact ⟨rfl, rfl, rfl⟩
      · simp [hv] at h
    | cons c rest => simp at h

/-- C8: `normalize_dtime` maps every string accepted by one of the four
formats (`%Y-%m-%dT%H:%M:%S`, `%Y-%m-%d %H:%M:%S`, `%Y-%m-%d`, `%Y`) to
its zero-padded full-ISO rendering with the omitted components defaulted
to zero — in particular `"2021"` to `"2021-01-01T00:00:00"` and
`"2021-05-04 10:20:30"` to `"2021-05-04T10:20:30"` — and raises on every
string matching none of the formats. -/
theorem normalize_dtime_spec :
    (∀ s t, strptimeFull parseSepT s = some t →
      normalize_dtime s = .ok (strftimeISO t)) ∧
    (∀ s t, strptimeFull parseSepWs s = some t →
      normalize_dtime s = .ok (strftimeISO t)) ∧
    (∀ s t, strptimeDate s = some t →
      normalize_dtime s = .ok (strftimeISO t) ∧
        t.hour = 0 ∧ t.minute = 0 ∧ t.second = 0) ∧
    (∀ s t, strptimeYear s = some t →
      normalize_dtime s = .ok (strftimeISO t) ∧
        t.month = 1 ∧ t.day = 1 ∧ t.hour = 0 ∧ t.minute = 0 ∧
        t.second = 0) ∧
    (∀ s, strptimeFull parseSepT s = none →
      strptimeFull parseSepWs s = none → strptimeDate s = none →
      strptimeYear s = none →
      normalize_dtime s =
        .error ("Unparsable as date-time: \"" ++ s ++ "\"")) ∧
    normalize_dtime "2021" = .ok "2021-01-01T00:00:00" ∧
    normalize_dtime "2021-05-04 10:20:30" = .ok "2021-05-04T10:20:30" ∧
    normalize_dtime "2021-05-99" =
      .error "Unparsable as date-time: \"2021-05-99\"" := by
  refine ⟨?_, ?_, ?_, ?_, ?_, by decide, by decide, by decide⟩
  · intro s t h
    simp [normalize_dtime, h]
  · intro s t h
    simp [normalize_dtime, strptimeT_none_of_ws h, h]
  · intro s t h
    refine ⟨?_, strptimeDate_shape h⟩
    simp [normalize_dtime, strptimeFull_none_of_date h parseSepT rfl,
      strptimeFull_none_of_date h parseSepWs rfl, h]
  · intro s t h
    have hymd := parseYMD_none_of_year h
    have hfull : ∀ sep, strptimeFull sep s = none := by
      intro sep
      unfold strptimeFull
      rw [hymd]
    have hdate : strptimeDate s = none := by
      unfold strptimeDate
      rw [hymd]
    refine ⟨?_, strptimeYear_shape h⟩
    simp [normalize_dtime, hfull, hdate, h]
  · intro s h1 h2 h3 h4
    simp [normalize_dtime, h1, h2, h3, h4]

/-- Witness for C8 at the year-only example and an unparsable string. -/
theorem normalize_dtime_spec_witness :
    (normalize_dtime "2021" = .ok (strftimeISO ⟨2021, 1, 1, 0, 0, 0⟩) ∧
      (2021 : ℕ) = 2021 ∧ True) ∧
    normalize_dtime "foo" = .error "Unparsable as date-time: \"foo\"" :=
  ⟨⟨(normalize_dtime_spec.2.2.2.1 "2021" ⟨2021, 1, 1, 0, 0, 0⟩
      (by decide)).1, rfl, trivial⟩,
   normalize_dtime_spec.2.2.2.2.1 "foo" (by decide) (by decide) (by decide)
     (by decide)⟩

/-! ### Spectral log-log interpolation (`_ref_periods` and `_get_sa`)

`_get_sa` computes `np.power(10.0, np.interp(ref_log_periods, logx,
logy))` with `logx`/`logy` the base-10 logarithms of the observed
periods and values.  `np.interp` is modelled over the reals for strictly
increasing sample points (which `np.interp` presumes; the parsed SA
periods fill that role), `np.log10` as `Real.logb 10`, and the power as
the real exponential.  Only rows whose observed values are positive
carry spectral content (a nonpositive value has no real log, numpy
propagating NaN there). -/

/-- `_ref_periods`: the fixed 111-period reference grid. -/
def _ref_periods : List ℚ :=
  [0.010, 0.020, 0.022, 0.025, 0.029, 0.030, 0.032,
   0.035, 0.036, 0.040, 0.042, 0.044, 0.045, 0.046,
   0.048, 0.050, 0.055, 0.060, 0.065, 0.067, 0.070,
   0.075, 0.080, 0.085, 0.090, 0.095, 0.100, 0.110,
   0.120, 0.130, 0.133, 0.140, 0.150, 0.160, 0.170,
   0.180, 0.190, 0.200, 0.220, 0.240, 0.250, 0.260,
   0.280, 0.290, 0.300, 0.320, 0.340, 0.350, 0.360,
   0.380, 0.400, 0.420, 0.440, 0.450, 0.460, 0.480,
   0.500, 0.550, 0.600, 0.650, 0.667, 0.700, 0.750,
   0.800, 0.850, 0.900, 0.950, 1.000, 1.100, 1.200,
   1.300, 1.400, 1.500, 1.600, 1.700, 1.800, 1.900,
   2.000, 2.200, 2.400, 2.500, 2.600, 2.800, 3.000,
   3.200, 3.400, 3.500, 3.600, 3.800, 4.000, 4.200,
   4.400, 4.600, 4.800, 5.000, 5.500, 6.000, 6.500,
   7.000, 7.500, 8.000, 8.500, 9.000, 9.500, 10.000,
   11.000, 12.000, 13.000, 14.000, 15.000, 20.000]

/-- `np.interp(x, xp, fp)` for ascending `xp`: clamp below the first
sample, linear interpolation on each segment, clamp beyond the last. -/
noncomputable def npInterp (x : ℝ) : List ℝ → List ℝ → ℝ
  | x0 :: x1 :: xs, y0 :: y1 :: ys =>
    if x < x0 then y0
    else if x ≤ x1 then y0 + (y1 - y0) * (x - x0) / (x1 - x0)
    else npInterp x (x1 :: xs) (y1 :: ys)
  | [_], y0 :: _ => y0
  | _, _ => 0

/-- `np.log10`. -/
noncomputable def log10 (x : ℝ) : ℝ := Real.logb 10 x

/-- The value `_get_sa` assigns to one target period `p`. -/
noncomputable def _get_sa_at (spectra_periods sa_values : List ℝ)
    (p : ℝ) : ℝ :=
  (10 : ℝ) ^ npInterp (log10 p) (spectra_periods.map log10)
    (sa_values.map log10)

/-- `_get_sa`: the stored `sa` vector, one value per reference period. -/
noncomputable def _get_sa (spectra_periods sa_values : List ℝ) :
    List ℝ :=
  _ref_periods.map fun p : ℚ =>
    _get_sa_at spectra_periods sa_values ((p : ℚ) : ℝ)

/-- Below (or at) the first sample point the interpolant is the first
sample value. -/
theorem npInterp_le_head (x x0 y0 : ℝ) (xs ys : List ℝ)
    (hlen : ys.length = xs.length)
    (hch : List.Chain' (· < ·) (x0 :: xs)) (hx : x ≤ x0) :
    npInterp x (x0 :: xs) (y0 :: ys) = y0 := by
  cases xs with
  | nil => rfl
  | cons x1 xs2 =>
    cases ys with
    | nil => simp at hlen
    | cons y1 ys2 =>
      by_cases hlt : x < x0
      · simp [npInterp, hlt]
      · have hx0 : x = x0 := le_antisymm hx (not_lt.mp hlt)
        have h01 : x0 < x1 := (List.chain'_cons.mp hch).1
        have hx1 : x ≤ x1 := le_of_lt (hx0 ▸ h01)
        simp only [npInterp, if_neg hlt, if_pos hx1]
        rw [hx0]
        simp

/-- In an ascending chain the head bounds the last element. -/
theorem chain_head_le_getLast :
    ∀ (l : List ℝ) (a : ℝ) (h : List.Chain' (· < ·) (a :: l)),
      a ≤ (a :: l).getLast (List.cons_ne_nil a l) := by
  intro l
  induction l with
  | nil => intro a h; simp
  | cons b l2 ih =>
    intro a h
    rw [List.getLast_cons (List.cons_ne_nil b l2)]
    have hab : a < b := (List.chain'_cons.mp h).1
    exact le_trans hab.le (ih b (List.chain'_cons.mp h).2)

/-- One unfolding of `npInterp` on a two-point head. -/
theorem npInterp_cons (x x0 x1 y0 y1 : ℝ) (xs ys : List ℝ) :
    npInterp x (x0 :: x1 :: xs) (y0 :: y1 :: ys) =
      if x < x0 then y0
      else if x ≤ x1 then y0 + (y1 - y0) * (x - x0) / (x1 - x0)
      else npInterp x (x1 :: xs) (y1 :: ys) := rfl

/-- At (or beyond) the last sample point the interpolant is the last
sample value. -/
theorem npInterp_ge_last :
    ∀ (xs ys : List ℝ) (x0 y0 x : ℝ),
      ys.length = xs.length →
      List.Chain' (· < ·) (x0 :: xs) →
      (x0 :: xs).getLast (List.cons_ne_nil x0 xs) ≤ x →
      npInterp x (x0 :: xs) (y0 :: ys) =
        (y0 :: ys).getLast (List.cons_ne_nil y0 ys) := by
  intro xs
  induction xs with
  | nil =>
    intro ys x0 y0 x hlen hch hx
    cases ys with
    | nil => rfl
    | cons a b => simp at hlen
  | cons x1 xs2 ih =>
    intro ys x0 y0 x hlen hch hx
    cases ys with
    | nil => simp at hlen
    | cons y1 ys2 =>
      have hlen2 : ys2.length = xs2.length := by simpa using hlen
      have h01 : x0 < x1 := (List.chain'_cons.mp hch).1
      have hch2 : List.Chain' (· < ·) (x1 :: xs2) :=
        (List.chain'_cons.mp hch).2
      rw [List.getLast_cons (List.cons_ne_nil x1 xs2)] at hx
      have hx1le : x1 ≤ x := le_trans (chain_head_le_getLast xs2 x1 hch2) hx
      have hnlt : ¬x < x0 := not_lt.mpr (le_trans h01.le hx1le)
      rw [List.getLast_cons (List.cons_ne_nil y1 ys2)]
      cases xs2 with
      | nil =>
        cases ys2 with
        | nil =>
          by_cases hle : x ≤ x1
          · have hx1 : x = x1 := le_antisymm hle hx1le
            have hne : x1 - x0 ≠ 0 := sub_ne_zero.mpr (ne_of_gt h01)
            rw [npInterp_cons, if_neg hnlt, if_pos hle, hx1, mul_div_assoc,
              div_self hne, mul_one]
            simp
          · rw [npInterp_cons, if_neg hnlt, if_neg hle]
            rfl
        | cons _ _ => simp at hlen2
      | cons x2 xs3 =>
        cases ys2 with
        | nil => simp at hlen2
        | cons y2 ys3 =>
          by_cases hle : x ≤ x1
          · exfalso
            have h12 : x1 < x2 := (List.chain'_cons.mp hch2).1
            have hg : (x1 :: x2 :: xs3).getLast (List.cons_ne_nil _ _) =
                (x2 :: xs3).getLast (List.cons_ne_nil x2 xs3) :=
              List.getLast_cons (List.cons_ne_nil x2 xs3)
            have hx2 : x2 ≤ x :=
              le_trans (chain_head_le_getLast xs3 x2
                (List.chain'_cons.mp hch2).2) (by rw [← hg]; exact hx)
            linarith
          · rw [npInterp_cons, if_neg hnlt, if_neg hle]
            exact ih (y2 :: ys3) x1 y1 x (by simpa using hlen2) hch2 hx

/-- `log10` maps an ascending positive chain to an ascending chain. -/
theorem chain_log10_map :
    ∀ (l : List ℝ), List.Chain' (· < ·) l → (∀ q ∈ l, 0 < q) →
      List.Chain' (· < ·) (l.map log10) := by
  intro l
  induction l with
  | nil => intro _ _; simp
  | cons a t ih =>
    intro hch hpos
    cases t with
    | nil => simp
    | cons b t2 =>
      rw [List.map_cons, List.map_cons, List.chain'_cons]
      refine ⟨?_, ?_⟩
      · exact Real.logb_lt_logb (by norm_num) (hpos a (by simp))
          (List.chain'_cons.mp hch).1
      · have := ih (List.chain'_cons.mp hch).2
          (fun q hq => hpos q (List.mem_cons_of_mem a hq))
        simpa using this

/-- C9: the reference grid has 111 strictly ascending periods, and the
log10-log10 linear interpolation of `_get_sa` gives every reference
period outside the observed period range exactly the value observed at
the nearest boundary period (flat extrapolation on both sides). -/
theorem get_sa_grid_flat_extrapolation :
    _ref_periods.length = 111 ∧
    List.Chain' (· < ·) _ref_periods ∧
    (∀ (ps vs : List ℝ) (p0 v0 : ℝ) (i : ℕ) (p : ℚ),
      List.Chain' (· < ·) (p0 :: ps) → (∀ q ∈ p0 :: ps, 0 < q) →
      0 < v0 → vs.length = ps.length →
      _ref_periods[i]? = some p → 0 < (p : ℝ) → (p : ℝ) ≤ p0 →
      (_get_sa (p0 :: ps) (v0 :: vs))[i]? = some v0) ∧
    (∀ (ps vs : List ℝ) (p0 v0 : ℝ) (i : ℕ) (p : ℚ),
      List.Chain' (· < ·) (p0 :: ps) → (∀ q ∈ p0 :: ps, 0 < q) →
      (∀ v ∈ v0 :: vs, 0 < v) → vs.length = ps.length →
      _ref_periods[i]? = some p →
      (p0 :: ps).getLast (List.cons_ne_nil p0 ps) ≤ (p : ℝ) →
      (_get_sa (p0 :: ps) (v0 :: vs))[i]? =
        some ((v0 :: vs).getLast (List.cons_ne_nil v0 vs))) := by
  refine ⟨rfl, ?_, ?_, ?_⟩
  · simp only [_ref_periods, List.chain'_cons, List.chain'_singleton,
      and_true]
    norm_num
  · intro ps vs p0 v0 i p hch hpos hv0 hlen hget hppos hple
    have hmap : (_get_sa (p0 :: ps) (v0 :: vs))[i]? =
        (_ref_periods[i]?).map
          (fun q : ℚ => _get_sa_at (p0 :: ps) (v0 :: vs) (q : ℝ)) := by
      unfold _get_sa
      exact List.getElem?_map _ _ _
    rw [hmap, hget]
    show some (_get_sa_at (p0 :: ps) (v0 :: vs) ((p : ℚ) : ℝ)) = _
    refine congrArg some ?_
    have hx : log10 (p : ℝ) ≤ log10 p0 :=
      Real.logb_le_logb_of_le (by norm_num) hppos hple
    have hint : npInterp (log10 (p : ℝ)) ((p0 :: ps).map log10)
        ((v0 :: vs).map log10) = log10 v0 :=
      npInterp_le_head (log10 (p : ℝ)) (log10 p0) (log10 v0)
        (ps.map log10) (vs.map log10) (by simpa using hlen)
        (chain_log10_map (p0 :: ps) hch hpos) hx
    unfold _get_sa_at
    rw [hint]
    rw [show log10 v0 = Real.logb 10 v0 from rfl]
    rw [Real.rpow_logb (by norm_num) (by norm_num) hv0]
  · intro ps vs p0 v0 i p hch hpos hvpos hlen hget hple
    have hmap : (_get_sa (p0 :: ps) (v0 :: vs))[i]? =
        (_ref_periods[i]?).map
          (fun q : ℚ => _get_sa_at (p0 :: ps) (v0 :: vs) (q : ℝ)) := by
      unfold _get_sa
      exact List.getElem?_map _ _ _
    rw [hmap, hget]
    show some (_get_sa_at (p0 :: ps) (v0 :: vs) ((p : ℚ) : ℝ)) = _
    refine congrArg some ?_
    have hlastpos : 0 < (p0 :: ps).getLast (List.cons_ne_nil p0 ps) :=
      hpos _ (List.getLast_mem (List.cons_ne_nil p0 ps))
    have hx : log10 ((p0 :: ps).getLast (List.cons_ne_nil p0 ps)) ≤
        log10 (p : ℝ) :=
      Real.logb_le_logb_of_le (by norm_num) hlastpos hple
    have hlast : ((p0 :: ps).map log10).getLast (by simp) =
        log10 ((p0 :: ps).getLast (List.cons_ne_nil p0 ps)) :=
      List.getLast_map log10 (p0 :: ps) (by simp)
    have hlastle : ((p0 :: ps).map log10).getLast (by simp) ≤
        log10 (p : ℝ) := by
      rw [hlast]
      exact hx
    have hint : npInterp (log10 (p : ℝ)) ((p0 :: ps).map log10)
        ((v0 :: vs).map log10) =
        log10 ((v0 :: vs).getLast (List.cons_ne_nil v0 vs)) :=
      (npInterp_ge_last (ps.map log10) (vs.map log10) (log10 p0)
        (log10 v0) (log10 (p : ℝ)) (by simpa using hlen)
        (chain_log10_map (p0 :: ps) hch hpos) hlastle).trans
        (List.getLast_map log10 (v0 :: vs) (by simp))
    unfold _get_sa_at
    rw [hint]
    exact Real.rpow_logb (by norm_num) (by norm_num)
      (hvpos _ (List.getLast_mem (List.cons_ne_nil v0 vs)))

/-- Witness for C9: on observed periods `[1, 2]` with values `[3, 5]`,
the reference period 0.010 (below the range) receives 3 and the
reference period 20.0 (above the range) receives 5. -/
theorem get_sa_grid_flat_extrapolation_witness :
    (_get_sa [(1 : ℝ), 2] [(3 : ℝ), 5])[0]? = some 3 ∧
    (_get_sa [(1 : ℝ), 2] [(3 : ℝ), 5])[110]? = some 5 := by
  constructor
  · exact get_sa_grid_flat_extrapolation.2.2.1 [2] [5] 1 3 0 (1/100)
      (by norm_num) (by intro q hq; simp at hq; rcases hq with rfl | rfl <;>
        norm_num)
      (by norm_num) rfl (by norm_num [_ref_periods]) (by norm_num)
      (by norm_num)
  · exact get_sa_grid_flat_extrapolation.2.2.2 [2] [5] 1 3 110 20
      (by norm_num) (by intro q hq; simp at hq; rcases hq with rfl | rfl <;>
        norm_num)
      (by intro v hv; simp at hv; rcases hv with rfl | rfl <;> norm_num)
      rfl (by norm_num [_ref_periods]) (by norm_num)

end Smtk
